import Mathlib

/-!
# Verification of `serverless-openapi-typescript`

A shallow embedding of `src/serverless-openapi-typescript.js` (the
`ServerlessOpenapiTypeScript` plugin class) and proofs about the claims of
its specification.

The plugin manipulates dynamically-typed JavaScript values (serverless
configuration objects, documentation blocks, OpenAPI documents), so the
embedding is built on a JavaScript-value type `Js` together with models of
the JavaScript primitives the source uses (truthiness, property reads and
writes under `'use strict'`, `Object.entries` / `Object.keys` /
`Object.values` / `Object.assign`) and of the lodash helpers it imports
(`get`, `set`, `upperFirst`, and the array-concatenating `mergeWith` used
for the model registry).

External collaborators are modelled as parameters: the schema resolver
(`ts-json-schema-generator`'s `createSchema`) is an explicit function
argument `resolve : String → Js`, and the run state `Run` records the
model registry, the lazily-created generator flag, and the log of resolver
invocations.  Fallible JavaScript code (property access on `null` /
`undefined`, strict-mode writes to primitives, calling array methods on
non-arrays) is embedded in `Except String`, with `"TypeError"` standing
for the thrown JavaScript `TypeError`.
-/

/-- A JavaScript value, as manipulated by the plugin: `undefined`, `null`,
booleans, numbers (the source only ever uses integral numbers such as
status codes), strings, arrays, and plain objects represented as ordered
key/value lists (JavaScript own-property insertion order). -/
inductive Js where
  | undef : Js
  | null : Js
  | bool : Bool → Js
  | num : Int → Js
  | str : String → Js
  | arr : List Js → Js
  | obj : List (String × Js) → Js

/-- JavaScript truthiness: `undefined`, `null`, `false`, `0` and `""` are
falsy; every array and object is truthy. -/
def Js.truthy : Js → Bool
  | .undef => false
  | .null => false
  | .bool b => b
  | .num n => n != 0
  | .str s => !s.isEmpty
  | .arr _ => true
  | .obj _ => true

/-- Is the value a plain object? -/
def Js.isObj : Js → Bool
  | .obj _ => true
  | _ => false

/-- Look up the first binding of a key in an object's field list
(JavaScript objects have unique keys, so first = only). -/
def objLookup : List (String × Js) → String → Option Js
  | [], _ => none
  | (k, v) :: rest, key => if k == key then some v else objLookup rest key

/-- JavaScript property write on an object's field list: update the
existing binding in place (keeping its position) or append a new one. -/
def objSet : List (String × Js) → String → Js → List (String × Js)
  | [], k, v => [(k, v)]
  | (k', v') :: rest, k, v =>
    if k' == k then (k, v) :: rest else (k', v') :: objSet rest k v

/-- `Object.assign(target, source)` on field lists: copy every own
property of `source` onto `target` in order. -/
def objAssign (target source : List (String × Js)) : List (String × Js) :=
  source.foldl (fun acc kv => objSet acc kv.1 kv.2) target

/-- JavaScript property read, `v[k]`, under `'use strict'`: reading a
property of `null` or `undefined` throws a `TypeError`; reading a missing
property of an object yields `undefined`; properties of primitives and
arrays other than the ones the source uses are not modelled and read as
`undefined`. -/
def jsGetProp : Js → String → Except String Js
  | .obj fs, k => Except.ok ((objLookup fs k).getD .undef)
  | .arr _, _ => Except.ok .undef
  | .str _, _ => Except.ok .undef
  | .num _, _ => Except.ok .undef
  | .bool _, _ => Except.ok .undef
  | .null, _ => Except.error "TypeError"
  | .undef, _ => Except.error "TypeError"

/-- Total variant of `jsGetProp` (used by the pure recomputations that the
theorems compare the code against; it agrees with `jsGetProp` away from
`null`/`undefined`). -/
def jsGetPropD : Js → String → Js
  | .obj fs, k => (objLookup fs k).getD .undef
  | _, _ => (.undef)

/-- JavaScript property write, `v[k] = x`, under `'use strict'`: writing
on an object updates/creates the binding; writing on `null`/`undefined`
or a primitive throws a `TypeError`; writing a named property on an array
is permitted by JavaScript (an expando property) but such properties are
invisible to the YAML serializer and to every read this source performs,
so it is modelled as a no-op. -/
def jsSetProp : Js → String → Js → Except String Js
  | .obj fs, k, x => Except.ok (.obj (objSet fs k x))
  | .arr xs, _, _ => Except.ok (.arr xs)
  | _, _, _ => Except.error "TypeError"

/-- `lodash.get` along a path, total: descending through anything that is
not an object (or through a missing key) yields `undefined`.  Numeric
indexing into arrays is supported (lodash path semantics). -/
def jsGetPath : Js → List String → Js
  | v, [] => v
  | .obj fs, k :: rest => jsGetPath ((objLookup fs k).getD .undef) rest
  | .arr xs, k :: rest =>
    match k.toNat? with
    | some i => jsGetPath (xs.getD i .undef) rest
    | none => jsGetPath .undef rest
  | _, _ :: _ => (.undef)

/-- `lodash.get`'s defaulting: the default value is used only when the
resolved value is `undefined` (not for `null` or other falsy values). -/
def jsDefaultTo (v d : Js) : Js :=
  match v with
  | .undef => d
  | x => x

/-- `Object.entries`, in `Except`: objects yield their field list, arrays
yield index/element pairs, strings yield index/character pairs, other
primitives yield nothing, and `null`/`undefined` throw a `TypeError`. -/
def jsEntries : Js → Except String (List (String × Js))
  | .obj fs => Except.ok fs
  | .arr xs => Except.ok (xs.enum.map (fun p => (toString p.1, p.2)))
  | .str s => Except.ok (s.data.enum.map (fun p => (toString p.1, Js.str (String.singleton p.2))))
  | .num _ => Except.ok []
  | .bool _ => Except.ok []
  | .null => Except.error "TypeError"
  | .undef => Except.error "TypeError"

/-- `Object.keys`, in `Except` (throws on `null`/`undefined`). -/
def jsKeys : Js → Except String (List String)
  | .obj fs => Except.ok (fs.map Prod.fst)
  | .arr xs => Except.ok ((List.range xs.length).map toString)
  | .str s => Except.ok ((List.range s.length).map toString)
  | .num _ => Except.ok []
  | .bool _ => Except.ok []
  | .null => Except.error "TypeError"
  | .undef => Except.error "TypeError"

/-- Total variant of `Object.keys` for the pure recomputations. -/
def jsKeysD : Js → List String
  | .obj fs => fs.map Prod.fst
  | .arr xs => (List.range xs.length).map toString
  | .str s => (List.range s.length).map toString
  | _ => []

/-- JavaScript strict equality `v === s` against a string literal. -/
def jsStrictEqStr (v : Js) (s : String) : Bool :=
  match v with
  | .str t => t == s
  | _ => false

/-- `lodash.upperFirst`: converts the first character of the string to
upper case and leaves the remainder verbatim. -/
def upperFirst (s : String) : String :=
  match s.data with
  | [] => ""
  | c :: rest => String.mk (c.toUpper :: rest)

/-- Auxiliary for `pascalCase`: the Boolean records whether the next
alphanumeric character starts a new word. -/
def pascalCaseGo : List Char → Bool → List Char
  | [], _ => []
  | c :: cs, up =>
    if c.isAlphanum then (if up then c.toUpper else c) :: pascalCaseGo cs false
    else pascalCaseGo cs true

/-- Modelled from the spec: `PascalCase(functionName)` as the spec's
model-naming rule uses the term (§3: model names are
`<apiNamespace>.<PascalCase(functionName)>.<suffix>`): split the name at
non-alphanumeric separators and capitalize the first letter of each
word.  This is a spec-side definition, to compare with the source's
`upperFirst`. -/
def pascalCase (s : String) : String :=
  String.mk (pascalCaseGo s.data true)

/-- `String.prototype.toLowerCase()` for the ASCII method names the source
lower-cases, as a per-character map. -/
def toLowerAscii (s : String) : String :=
  String.mk (s.data.map Char.toLower)

/-- Auxiliary for `splitOnDot`. -/
def splitOnDotGo : List Char → List Char → List String
  | [], acc => [String.mk acc.reverse]
  | c :: cs, acc =>
    if c = '.' then String.mk acc.reverse :: splitOnDotGo cs []
    else splitOnDotGo cs (c :: acc)

/-- Splitting a lodash path string at dots, as `stringToPath` does for the
`functionName ++ ".events"` paths the scanner builds. -/
def splitOnDot (s : String) : List String :=
  splitOnDotGo s.data []

/-- An entry of the model registry
(`custom.documentation.models`): `{name, contentType, schema}`. -/
structure ModelDef where
  name : String
  contentType : String
  schema : Js

/-- The mutable plugin state threaded through a run: the model registry
(`serverless.service.custom.documentation.models`), whether the
`ts-json-schema-generator` generator has been created
(`this.schemaGenerator`, lazily created and then reused), and the log of
`createSchema` invocations made against the external schema resolver. -/
structure Run where
  models : List ModelDef
  generatorCreated : Bool
  resolverCalls : List String

/-- The plugin state at the start of a run. -/
def emptyRun : Run :=
  { models := [], generatorCreated := false, resolverCalls := [] }

/-- `generateSchema(modelName)`: the source memoizes only the *generator*
object (`this.schemaGenerator = this.schemaGenerator || tsj.createGenerator(...)`)
and then calls `createSchema(modelName)` on every invocation; the
invocation is appended to the resolver log and the resolver's answer
returned. -/
def generateSchema (resolve : String → Js) (st : Run) (modelName : String) : Js × Run :=
  (resolve modelName,
   { st with generatorCreated := true,
             resolverCalls := st.resolverCalls ++ [modelName] })

/-- `setModel(modelName)`: registers a model.  The source calls
`mergeWith(this.serverless.service.custom, {documentation: {models: [entry]}}, customizer)`
with a customizer that concatenates arrays, so the single new entry
`{name, contentType: 'application/json', schema: generateSchema(modelName)}`
is appended to the end of `custom.documentation.models` and nothing else
in the registry changes. -/
def setModel (resolve : String → Js) (st : Run) (modelName : String) : Run :=
  let p := generateSchema resolve st modelName
  { p.2 with models := p.2.models ++
      [{ name := modelName, contentType := "application/json", schema := p.1 }] }

/-- `lodash.set(httpEvent, 'documentation.' ++ k2, x)` specialised to the
two-segment paths the source uses: on an object, the nested write updates
`documentation` when it is an object, silently targets an expando
property when `documentation` is an array (modelled as a no-op, see
`jsSetProp`), and replaces a primitive `documentation` by a fresh
one-field object (lodash `baseSet` replaces non-object intermediates);
`lodash.set` returns non-objects unchanged. -/
def lodashSetDoc (v : Js) (k2 : String) (x : Js) : Js :=
  match v with
  | .obj fs =>
    let inner := (objLookup fs "documentation").getD .undef
    let inner' :=
      match inner with
      | .obj ifs => Js.obj (objSet ifs k2 x)
      | .arr xs => Js.arr xs
      | _ => Js.obj [(k2, x)]
    .obj (objSet fs "documentation" inner')
  | .arr xs => .arr xs
  | x => x

/-- The shared tail of `setModels`' `switch` (the `case 'get':` block,
reached directly for GET and by fallthrough for PATCH/PUT/POST):
register the `<prefix>.Response` model and overwrite
`documentation.methodResponses` with the single 200 entry. -/
def setModelsResponseCase (resolve : String → Js) (base : String) (st : Run)
    (httpEvent : Js) : Js × Run :=
  let responseModelName := base ++ ".Response"
  let st := setModel resolve st (base ++ ".Response")
  let httpEvent := lodashSetDoc httpEvent "methodResponses"
    (.arr [.obj [("statusCode", .num 200),
                 ("responseBody", .obj [("description", .str "")]),
                 ("responseModels", .obj [("application/json", .str responseModelName)])]])
  (httpEvent, st)

/-- `setModels(httpEvent, functionName)`: dispatch on
`httpEvent.method.toLowerCase()`.  DELETE overwrites `methodResponses`
with a single 204 entry and registers nothing; PATCH/PUT/POST register
`<prefix>.Request.Body`, set `requestModels`/`requestBody`, then fall
through to the GET case; GET registers `<prefix>.Response` and
overwrites `methodResponses` with the 200 entry; any other method is a
no-op.  `prefix` is `apiNamespace ++ "." ++ upperFirst functionName`. -/
def setModels (resolve : String → Js) (apiNamespace : String) (st : Run)
    (httpEvent : Js) (functionName : String) : Except String (Js × Run) := do
  let base := apiNamespace ++ "." ++ upperFirst functionName
  let methodJs ← jsGetProp httpEvent "method"
  let method ←
    match methodJs with
    | .str s => Except.ok (toLowerAscii s)
    | _ => Except.error "TypeError"
  if method == "delete" then
    Except.ok (lodashSetDoc httpEvent "methodResponses"
      (.arr [.obj [("statusCode", .num 204), ("responseModels", .obj [])]]), st)
  else if method == "patch" || method == "put" || method == "post" then
    let requestModelName := base ++ ".Request.Body"
    let st := setModel resolve st (base ++ ".Request.Body")
    let httpEvent := lodashSetDoc httpEvent "requestModels"
      (.obj [("application/json", .str requestModelName)])
    let httpEvent := lodashSetDoc httpEvent "requestBody"
      (.obj [("description", .str "")])
    Except.ok (setModelsResponseCase resolve base st httpEvent)
  else if method == "get" then
    Except.ok (setModelsResponseCase resolve base st httpEvent)
  else
    Except.ok (httpEvent, st)

/-- `documentedParams.find(p => p.name === name)`, as the position of the
first match; reading `.name` of a `null`/`undefined` element throws. -/
def findParamIdx : List Js → String → Except String (Option Nat)
  | [], _ => Except.ok none
  | x :: rest, name => do
    let nm ← jsGetProp x "name"
    if jsStrictEqStr nm name then
      Except.ok (some 0)
    else
      match (← findParamIdx rest name) with
      | some i => Except.ok (some (i + 1))
      | none => Except.ok none

/-- One iteration of the `Object.entries(params).forEach` loop of
`setDefaultParamsDocumentation`, for the pair `(name, required)`:
ensure `documentation[documentationKey]` is a (possibly fresh empty)
array, find an existing entry by name, resolve a string-valued `schema`
on the existing entry in place, then either push the default
`{name, required, schema: {type: 'string'}}` or merge
(`Object.assign(default, existing); Object.assign(existing, default)`)
into the existing entry in place. -/
def setDefaultParamsDocStep (resolve : String → Js) (documentationKey : String)
    (acc : Js × Run) (p : String × Js) : Except String (Js × Run) := do
  let httpEvent := acc.1
  let st := acc.2
  let name := p.1
  let required := p.2
  let doc ← jsGetProp httpEvent "documentation"
  let cur0 ← jsGetProp doc documentationKey
  let cur := if cur0.truthy then cur0 else Js.arr []
  let doc ← jsSetProp doc documentationKey cur
  let elems ←
    match cur with
    | .arr xs => Except.ok xs
    | _ => Except.error "TypeError"
  let idx ← findParamIdx elems name
  match idx with
  | none =>
    let paramDocumentationFromSls := Js.obj
      [("name", .str name), ("required", required),
       ("schema", .obj [("type", .str "string")])]
    let doc ← jsSetProp doc documentationKey (.arr (elems ++ [paramDocumentationFromSls]))
    let httpEvent ← jsSetProp httpEvent "documentation" doc
    Except.ok (httpEvent, st)
  | some i =>
    let existing := elems.getD i .undef
    let schemaV ← jsGetProp existing "schema"
    let resolved ←
      match schemaV with
      | .str s =>
        let q := generateSchema resolve st s
        (do
          let ex ← jsSetProp existing "schema" q.1
          Except.ok (ex, q.2))
      | _ => Except.ok (existing, st)
    let existing := resolved.1
    let st := resolved.2
    match existing with
    | .obj efs =>
      let defFields := [("name", Js.str name), ("required", required),
                        ("schema", Js.obj [("type", Js.str "string")])]
      let merged := objAssign efs (objAssign defFields efs)
      let doc ← jsSetProp doc documentationKey (.arr (elems.set i (Js.obj merged)))
      let httpEvent ← jsSetProp httpEvent "documentation" doc
      Except.ok (httpEvent, st)
    | _ => Except.error "TypeError"

/-- `setDefaultParamsDocumentation(params, httpEvent, documentationKey)`:
iterate `Object.entries(params)` with `setDefaultParamsDocStep`. -/
def setDefaultParamsDocumentation (resolve : String → Js) (st : Run)
    (params : Js) (httpEvent : Js) (documentationKey : String) :
    Except String (Js × Run) := do
  let entries ← jsEntries params
  entries.foldlM (setDefaultParamsDocStep resolve documentationKey) (httpEvent, st)

/-- The body of the scanner's `if (httpEvent)` branch: for a truthy
`documentation`, run `setModels` and then normalize path and querystring
parameters; for a `null` documentation or a private event, do nothing;
otherwise record the function name as missing documentation.  Returns the
(possibly mutated) http event, the new state, and the names pushed onto
`functionsMissingDocumentation`. -/
def processHttpEvent (resolve : String → Js) (apiNamespace : String) (st : Run)
    (httpEvent : Js) (functionName : String) :
    Except String (Js × Run × List String) := do
  let doc ← jsGetProp httpEvent "documentation"
  if doc.truthy then do
    let p ← setModels resolve apiNamespace st httpEvent functionName
    let httpEvent := p.1
    let st := p.2
    let paths := jsDefaultTo (jsGetPath httpEvent ["request", "parameters", "paths"]) (.arr [])
    let querystrings := jsDefaultTo (jsGetPath httpEvent ["request", "parameters", "querystrings"]) (.obj [])
    let q ← setDefaultParamsDocumentation resolve st paths httpEvent "pathParams"
    let r ← setDefaultParamsDocumentation resolve q.2 querystrings q.1 "queryParams"
    Except.ok (r.1, r.2, [])
  else
    match doc with
    | .null => Except.ok (httpEvent, st, [])
    | _ => do
      let priv ← jsGetProp httpEvent "private"
      if priv.truthy then
        Except.ok (httpEvent, st, [])
      else
        Except.ok (httpEvent, st, [functionName])

/-- One iteration of the scanner's inner `events.forEach`: read
`event.http` and, when truthy, process it. -/
def scanEvent (resolve : String → Js) (apiNamespace functionName : String)
    (acc : Run × List String) (ev : Js) : Except String (Run × List String) := do
  let httpEvent ← jsGetProp ev "http"
  if httpEvent.truthy then do
    let r ← processHttpEvent resolve apiNamespace acc.1 httpEvent functionName
    Except.ok (r.2.1, acc.2 ++ r.2.2)
  else
    Except.ok acc

/-- One iteration of the scanner's outer loop over
`Object.keys(this.functions)`: fetch
`get(this.functions, functionName ++ ".events", [])` (lodash splits the
path at dots) and iterate the events; calling `.forEach` on a non-array
throws. -/
def scanFunction (resolve : String → Js) (apiNamespace : String) (fns : Js)
    (acc : Run × List String) (functionName : String) :
    Except String (Run × List String) := do
  let events := jsDefaultTo (jsGetPath fns (splitOnDot functionName ++ ["events"])) (.arr [])
  match events with
  | .arr evs => evs.foldlM (scanEvent resolve apiNamespace functionName) acc
  | _ => Except.error "TypeError"

/-- `this.functions`: `this.serverless.service.functions || {}`. -/
def serviceFunctions (functions : Js) : Js :=
  if functions.truthy then functions else Js.obj []

/-- The scanning phase of `populateServerlessWithModels` (everything
before `assertAllFunctionsDocumented`): fold over all declared functions
and their events, producing the final state and the list of function
names missing documentation, in push order. -/
def scanFunctions (resolve : String → Js) (apiNamespace : String)
    (functions : Js) : Except String (Run × List String) := do
  let fns := serviceFunctions functions
  let names ← jsKeys fns
  names.foldlM (scanFunction resolve apiNamespace fns) (emptyRun, [])

/-- The exact message of the error thrown by
`assertAllFunctionsDocumented` (a JavaScript template literal; the
interpolated array prints as its elements joined by commas). -/
def missingDocMessage (missing : List String) : String :=
  "Some functions have http events which are not documented:\n         "
    ++ String.intercalate "," missing
    ++ "\n         \n        Please add a documentation attribute. \n        If you wish to keep the function undocumented, please explicitly set \n        documentation: ~\n         \n        "

/-- `assertAllFunctionsDocumented()`: if the missing-documentation list is
non-empty, throw an `Error` naming every recorded function. -/
def assertAllFunctionsDocumented (missing : List String) : Except String Unit :=
  if missing.isEmpty then Except.ok () else Except.error (missingDocMessage missing)

/-- `populateServerlessWithModels()`: scan every function and event, then
run the completeness gate. -/
def populateServerlessWithModels (resolve : String → Js) (apiNamespace : String)
    (functions : Js) : Except String Run := do
  let r ← scanFunctions resolve apiNamespace functions
  let _ ← assertAllFunctionsDocumented r.2
  Except.ok r.1

/-- Apply a fallible mutation to every value of a field list, in order,
stopping at the first thrown error (the body of a `forEach` over
`Object.values` that reassigns each value). -/
def mapPairsM (f : Js → Except String Js) : List (String × Js) → Except String (List (String × Js))
  | [] => Except.ok []
  | kv :: rest => do
    let v' ← f kv.2
    let rest' ← mapPairsM f rest
    Except.ok ((kv.1, v') :: rest')

/-- Apply a fallible mutation to every element of a list, in order. -/
def mapListM (f : Js → Except String Js) : List Js → Except String (List Js)
  | [] => Except.ok []
  | v :: rest => do
    let v' ← f v
    let rest' ← mapListM f rest
    Except.ok (v' :: rest')

/-- `Object.values(v).forEach(x => mutate x)` where the mutation replaces
each value: objects map their field values, arrays map their elements,
non-empty strings would hand primitive characters to the mutation (which
throws for the mutations this source performs), other primitives have no
values, and `null`/`undefined` throw. -/
def mapJsValuesM (f : Js → Except String Js) : Js → Except String Js
  | .obj fs => do
    let fs' ← mapPairsM f fs
    Except.ok (.obj fs')
  | .arr xs => do
    let xs' ← mapListM f xs
    Except.ok (.arr xs')
  | .str s => if s.isEmpty then Except.ok (.str s) else Except.error "TypeError"
  | .num n => Except.ok (.num n)
  | .bool b => Except.ok (.bool b)
  | .null => Except.error "TypeError"
  | .undef => Except.error "TypeError"

/-- `patchOpenApiVersion(openApi)`: set the `openapi` field to the fixed
string `'3.1.0'` (a strict-mode property write). -/
def patchOpenApiVersion (openApi : Js) : Except String Js :=
  jsSetProp openApi "openapi" (.str "3.1.0")

/-- `tagMethods(openApi)`: derive `tagName` from `info.title`, overwrite
the document's `tags` with the single entry
`{name: tagName, description: info.description}`, and set every value of
every path item of `paths` to carry `tags = [tagName]`. -/
def tagMethods (openApi : Js) : Except String Js := do
  let info ← jsGetProp openApi "info"
  let tagName ← jsGetProp info "title"
  let desc ← jsGetProp info "description"
  let openApi ← jsSetProp openApi "tags"
    (.arr [.obj [("name", tagName), ("description", desc)]])
  let paths ← jsGetProp openApi "paths"
  let paths' ← mapJsValuesM
    (fun pathItem => mapJsValuesM (fun m => jsSetProp m "tags" (.arr [tagName])) pathItem)
    paths
  jsSetProp openApi "paths" paths'

/-- `fs.writeFileSync(path, content)` over a filesystem modelled as a
path/content association list: overwrite the existing file in place or
create it. -/
def fsWrite : List (String × String) → String → String → List (String × String)
  | [], path, content => [(path, content)]
  | (p, c) :: rest, path, content =>
    if p == path then (path, content) :: rest
    else (p, c) :: fsWrite rest path content

/-- `postProcessOpenApi()`: the source runs
`const openApi = yaml.load(outputFile)` — it hands the output *path*
string itself to the YAML parser and never reads the file — then patches
the version, tags the methods, and writes the result back with
`fs.writeFileSync(outputFile, yaml.dump(openApi))`.  The external
`yaml.load`/`yaml.dump` are parameters; note that the filesystem is not
consulted before the write. -/
def postProcessOpenApi (yamlLoad : String → Js) (yamlDump : Js → String)
    (fsys : List (String × String)) (outputFile : String) :
    Except String (List (String × String)) := do
  let openApi := yamlLoad outputFile
  let openApi ← patchOpenApiVersion openApi
  let openApi ← tagMethods openApi
  Except.ok (fsWrite fsys outputFile (yamlDump openApi))

/-- `js-yaml`'s `load` restricted to the inputs `postProcessOpenApi`
actually feeds it: a YAML document that consists of a single plain scalar
(such as a file path like `openapi.yml`, with no YAML indicator
characters) parses to that string itself. -/
def yamlLoadScalar (s : String) : Js :=
  Js.str s

/-- A `yaml.dump` stand-in for stating concrete theorems about
`postProcessOpenApi` (its value is irrelevant on the error paths the
theorems take). -/
def yamlDumpStub (_ : Js) : String :=
  ""

/-- A registry entry as `setModel` builds it for a model name. -/
def mkModelDef (resolve : String → Js) (n : String) : ModelDef :=
  { name := n, contentType := "application/json", schema := resolve n }

/-- Total variant of `Object.entries` for the pure recomputations. -/
def jsEntriesD : Js → List (String × Js)
  | .obj fs => fs
  | .arr xs => xs.enum.map (fun p => (toString p.1, p.2))
  | .str s => s.data.enum.map (fun p => (toString p.1, Js.str (String.singleton p.2)))
  | _ => []

/-- No string occurs twice in the list (JavaScript object keys). -/
def keysNodup : List String → Bool
  | [] => true
  | k :: rest => !(rest.contains k) && keysNodup rest

/-- Position of the first parameter-documentation entry whose `name`
strictly equals the given name (pure counterpart of `findParamIdx`). -/
def idxFirstByName : List Js → String → Option Nat
  | [], _ => none
  | x :: rest, name =>
    if jsStrictEqStr (jsGetPropD x "name") name then some 0
    else (idxFirstByName rest name).map (· + 1)

/-- The effective parameter-documentation list stored under a key of a
documentation object: the array if the value is a truthy array, and the
empty list if the value is absent or falsy (the `|| []` defaulting). -/
def elemsOfD (doc : Js) (key : String) : List Js :=
  let v := jsGetPropD doc key
  if v.truthy then
    match v with
    | .arr xs => xs
    | _ => []
  else []

/-- Same defaulting, on a field list, distinguishing the error case of a
truthy non-array value (on which the source's `.find` call throws):
used to state the parameter-normalization claim. -/
def effectiveParamList (dfs : List (String × Js)) (key : String) : Option (List Js) :=
  match objLookup dfs key with
  | some v =>
    if v.truthy then
      match v with
      | .arr xs => some xs
      | _ => none
    else some []
  | none => some []

/-- The model names `setModels` registers for a lower-cased method. -/
def methodModelRefs (base m : String) : List String :=
  if m == "delete" then []
  else if m == "patch" || m == "put" || m == "post" then
    [base ++ ".Request.Body", base ++ ".Response"]
  else if m == "get" then [base ++ ".Response"]
  else []

/-- The schema-resolver invocations parameter normalization makes over a
given starting parameter-documentation list: one per parameter whose
existing documentation entry carries a string-valued `schema`. -/
def paramRefsFromElems (elems : List Js) (entries : List (String × Js)) : List String :=
  entries.flatMap fun p =>
    match idxFirstByName elems p.1 with
    | some i =>
      match jsGetPropD (elems.getD i .undef) "schema" with
      | .str s => [s]
      | _ => []
    | none => []

/-- The schema-resolver invocations parameter normalization makes for one
documentation key of a documentation object. -/
def paramKeyRefs (doc : Js) (key : String) (entries : List (String × Js)) : List String :=
  paramRefsFromElems (elemsOfD doc key) entries

/-- All schema-resolver invocations processing one truthy-`documentation`
http event makes, in order: the method-dispatch registrations, then the
path-parameter resolutions, then the querystring-parameter resolutions. -/
def eventHttpModelRefs (apiNamespace functionName : String) (h : Js) : List String :=
  let d := jsGetPropD h "documentation"
  if d.truthy then
    let base := apiNamespace ++ "." ++ upperFirst functionName
    let mrefs :=
      match jsGetPropD h "method" with
      | .str s => methodModelRefs base (toLowerAscii s)
      | _ => []
    let paths := jsDefaultTo (jsGetPath h ["request", "parameters", "paths"]) (.arr [])
    let querystrings := jsDefaultTo (jsGetPath h ["request", "parameters", "querystrings"]) (.obj [])
    mrefs ++ paramKeyRefs d "pathParams" (jsEntriesD paths)
          ++ paramKeyRefs d "queryParams" (jsEntriesD querystrings)
  else []

/-- The events list the scanner fetches for a function name
(`get(this.functions, functionName ++ ".events", [])`), as a list. -/
def functionEventsD (fns : Js) (functionName : String) : List Js :=
  match jsDefaultTo (jsGetPath fns (splitOnDot functionName ++ ["events"])) (.arr []) with
  | .arr evs => evs
  | _ => []

/-- The contribution of one truthy http event to
`functionsMissingDocumentation`: the function name, when `documentation`
is falsy but not exactly `null` and the event is not private. -/
def httpEventMissing (functionName : String) (h : Js) : List String :=
  let d := jsGetPropD h "documentation"
  if d.truthy then []
  else
    match d with
    | .null => []
    | _ => if (jsGetPropD h "private").truthy then [] else [functionName]

/-- The contribution of one event to `functionsMissingDocumentation`. -/
def eventOffender (functionName : String) (ev : Js) : List String :=
  let h := jsGetPropD ev "http"
  if h.truthy then httpEventMissing functionName h else []

/-- All function names recorded as missing documentation over a whole
scan, in push order (a name repeats once per offending event). -/
def offendingFunctions (functions : Js) : List String :=
  let fns := serviceFunctions functions
  (jsKeysD fns).flatMap fun n => (functionEventsD fns n).flatMap (eventOffender n)

/-- All schema-resolver invocations a whole scan makes, in order. -/
def modelRefs (apiNamespace : String) (functions : Js) : List String :=
  let fns := serviceFunctions functions
  (jsKeysD fns).flatMap fun n =>
    (functionEventsD fns n).flatMap fun ev =>
      let h := jsGetPropD ev "http"
      if h.truthy then eventHttpModelRefs apiNamespace n h else []

/-- The model names `setModels` registers for one truthy http event. -/
def eventRegisteredModelNames (apiNamespace functionName : String) (h : Js) : List String :=
  let d := jsGetPropD h "documentation"
  if d.truthy then
    match jsGetPropD h "method" with
    | .str s => methodModelRefs (apiNamespace ++ "." ++ upperFirst functionName) (toLowerAscii s)
    | _ => []
  else []

/-- All model names a whole scan registers in the model registry, in
order (only `setModels` registers models; parameter normalization
resolves schemas without registering). -/
def registeredModelNames (apiNamespace : String) (functions : Js) : List String :=
  let fns := serviceFunctions functions
  (jsKeysD fns).flatMap fun n =>
    (functionEventsD fns n).flatMap fun ev =>
      let h := jsGetPropD ev "http"
      if h.truthy then eventRegisteredModelNames apiNamespace n h else []

/-- Well-formedness of a path/querystring parameter set, as the scanner
hands it to `Object.entries`: a `name → required` object with distinct
keys (a JavaScript object guarantee), an empty array (the default), or a
valueless primitive. -/
def wfParamSource (v : Js) : Bool :=
  match v with
  | .obj fs => keysNodup (fs.map Prod.fst)
  | .arr xs => xs.isEmpty
  | .num _ => true
  | .bool _ => true
  | _ => false

/-- A `ParamDoc` entry: a plain object with (JavaScript-guaranteed)
distinct keys. -/
def wfParamDoc (x : Js) : Bool :=
  match x with
  | .obj fs => keysNodup (fs.map Prod.fst)
  | _ => false

/-- Well-formedness of the value stored under `pathParams`/`queryParams`
of a documentation object: falsy (to be defaulted), or an array of
`ParamDoc` objects. -/
def wfParamDocValue (v : Js) : Bool :=
  if v.truthy then
    match v with
    | .arr xs => xs.all wfParamDoc
    | _ => false
  else true

/-- Well-formedness of a truthy http event, matching the spec's data
model (§3): if `documentation` is truthy it is an object whose
`pathParams`/`queryParams` are well-formed ParamDoc lists, `method` is a
string, and the path/querystring parameter sets are well-formed.
Undocumented events are unconstrained. -/
def wfHttpEvent (h : Js) : Bool :=
  let d := jsGetPropD h "documentation"
  if d.truthy then
    (match jsGetPropD h "method" with
     | .str _ => true
     | _ => false) &&
    (match d with
     | .obj dfs =>
       wfParamDocValue ((objLookup dfs "pathParams").getD .undef) &&
       wfParamDocValue ((objLookup dfs "queryParams").getD .undef)
     | _ => false) &&
    wfParamSource (jsDefaultTo (jsGetPath h ["request", "parameters", "paths"]) (.arr [])) &&
    wfParamSource (jsDefaultTo (jsGetPath h ["request", "parameters", "querystrings"]) (.obj []))
  else true

/-- Well-formedness of one entry of an `events` list: not nullish (the
scanner reads `event.http`), and any truthy http event well-formed. -/
def wfEvent (ev : Js) : Bool :=
  match ev with
  | .null => false
  | .undef => false
  | _ =>
    if (jsGetPropD ev "http").truthy then wfHttpEvent (jsGetPropD ev "http") else true

/-- Well-formedness of the declared functions value: every function's
`events` is an array (or absent, defaulted to `[]`) of well-formed
events.  This is the shape the spec's data model (§3) guarantees. -/
def wfFunctions (functions : Js) : Bool :=
  let fns := serviceFunctions functions
  (jsKeysD fns).all fun n =>
    match jsDefaultTo (jsGetPath fns (splitOnDot n ++ ["events"])) (.arr []) with
    | .arr evs => evs.all wfEvent
    | _ => false

/-- An http event that is intentionally undocumented under the source's
actual guard order: `documentation` falsy, and either exactly `null` or
the event private. -/
def httpEventOptedOut (h : Js) : Bool :=
  let d := jsGetPropD h "documentation"
  !d.truthy &&
    (match d with
     | .null => true
     | _ => (jsGetPropD h "private").truthy)

/-- Every http event of every declared function is intentionally
undocumented. -/
def allEventsOptedOut (functions : Js) : Bool :=
  let fns := serviceFunctions functions
  (jsKeysD fns).all fun n =>
    (functionEventsD fns n).all fun ev =>
      let h := jsGetPropD ev "http"
      !h.truthy || httpEventOptedOut h

/-- The effective parameter-documentation list determined by a stored
value: the array when truthy, the empty list when falsy (`|| []`). -/
def elemsOfV (v : Js) : List Js :=
  if v.truthy then
    match v with
    | .arr xs => xs
    | _ => []
  else []

/-- First-of-two options (strict `Option.orElse`), used to state merge
lemmas. -/
def optOr (a b : Option Js) : Option Js :=
  match a with
  | some x => some x
  | none => b

theorem objLookup_objSet (fs : List (String × Js)) (k k' : String) (v : Js) :
    objLookup (objSet fs k v) k' = if k' = k then some v else objLookup fs k' := by
  induction fs with
  | nil =>
    by_cases h : k' = k
    · subst h; simp [objSet, objLookup]
    · have hb : (k == k') = false := beq_eq_false_iff_ne.mpr (Ne.symm h)
      simp [objSet, objLookup, hb, h]
  | cons kv rest ih =>
    obtain ⟨k₀, v₀⟩ := kv
    by_cases h0 : k₀ = k
    · subst h0
      by_cases h1 : k' = k₀
      · subst h1; simp [objSet, objLookup]
      · have hb : (k₀ == k') = false := beq_eq_false_iff_ne.mpr (Ne.symm h1)
        simp [objSet, objLookup, hb, h1]
    · have hb0 : (k₀ == k) = false := beq_eq_false_iff_ne.mpr h0
      by_cases h1 : k' = k₀
      · subst h1
        have hne : ¬(k' = k) := fun he => h0 (he ▸ rfl)
        simp [objSet, objLookup, hb0, hne]
      · have hb1 : (k₀ == k') = false := beq_eq_false_iff_ne.mpr (Ne.symm h1)
        simp [objSet, objLookup, hb0, hb1, ih]

theorem objSet_self (fs : List (String × Js)) (k : String) (v : Js)
    (h : objLookup fs k = some v) : objSet fs k v = fs := by
  induction fs with
  | nil => simp [objLookup] at h
  | cons kv rest ih =>
    obtain ⟨k₀, v₀⟩ := kv
    by_cases h0 : k₀ = k
    · subst h0
      simp [objLookup] at h
      simp [objSet, h]
    · have hb0 : (k₀ == k) = false := beq_eq_false_iff_ne.mpr h0
      simp [objLookup, hb0] at h
      simp [objSet, hb0, ih h]

theorem objLookup_none_of_not_contains (fs : List (String × Js)) (k : String)
    (h : (fs.map Prod.fst).contains k = false) : objLookup fs k = none := by
  induction fs with
  | nil => rfl
  | cons kv rest ih =>
    obtain ⟨k₀, v₀⟩ := kv
    simp only [List.map, List.contains, List.elem] at h
    cases hb : k == k₀ with
    | true => rw [hb] at h; cases h
    | false =>
      rw [hb] at h
      have hb' : (k₀ == k) = false :=
        beq_eq_false_iff_ne.mpr (Ne.symm (beq_eq_false_iff_ne.mp hb))
      simp [objLookup, hb', ih h]

theorem objLookup_isSome_of_contains (fs : List (String × Js)) (k : String)
    (h : (fs.map Prod.fst).contains k = true) : ∃ w, objLookup fs k = some w := by
  induction fs with
  | nil => simp [List.contains] at h
  | cons kv rest ih =>
    obtain ⟨k₀, v₀⟩ := kv
    simp only [List.map, List.contains, List.elem] at h
    cases hb : k == k₀ with
    | true =>
      have : k₀ = k := (beq_iff_eq.mp hb).symm
      subst this
      exact ⟨v₀, by simp [objLookup]⟩
    | false =>
      rw [hb] at h
      have hb' : (k₀ == k) = false :=
        beq_eq_false_iff_ne.mpr (Ne.symm (beq_eq_false_iff_ne.mp hb))
      obtain ⟨w, hw⟩ := ih h
      exact ⟨w, by simp [objLookup, hb', hw]⟩

theorem objSet_keys_of_lookup_some (fs : List (String × Js)) (k : String) (v w : Js)
    (h : objLookup fs k = some w) : (objSet fs k v).map Prod.fst = fs.map Prod.fst := by
  induction fs with
  | nil => simp [objLookup] at h
  | cons kv rest ih =>
    obtain ⟨k₀, v₀⟩ := kv
    by_cases h0 : k₀ = k
    · subst h0; simp [objSet]
    · have hb0 : (k₀ == k) = false := beq_eq_false_iff_ne.mpr h0
      simp [objLookup, hb0] at h
      simp [objSet, hb0, ih h]

theorem objSet_keys_of_lookup_none (fs : List (String × Js)) (k : String) (v : Js)
    (h : objLookup fs k = none) : (objSet fs k v).map Prod.fst = fs.map Prod.fst ++ [k] := by
  induction fs with
  | nil => simp [objSet]
  | cons kv rest ih =>
    obtain ⟨k₀, v₀⟩ := kv
    by_cases h0 : k₀ = k
    · subst h0; simp [objLookup] at h
    · have hb0 : (k₀ == k) = false := beq_eq_false_iff_ne.mpr h0
      simp [objLookup, hb0] at h
      simp [objSet, hb0, ih h]

theorem keysNodup_append_singleton (l : List String) (k : String)
    (hl : keysNodup l = true) (hk : l.contains k = false) :
    keysNodup (l ++ [k]) = true := by
  induction l with
  | nil => simp [keysNodup, List.contains]
  | cons a rest ih =>
    simp only [List.contains, List.elem] at hk
    cases hb : k == a with
    | true => rw [hb] at hk; cases hk
    | false =>
      rw [hb] at hk
      simp only [keysNodup, Bool.and_eq_true] at hl
      have hrest := ih hl.2 hk
      simp only [List.cons_append, keysNodup, Bool.and_eq_true]
      refine ⟨?_, hrest⟩
      have hna : rest.contains a = false := by
        cases hc : rest.contains a with
        | false => rfl
        | true => rw [hc] at hl; cases hl.1
      cases hc : (rest ++ [k]).contains a with
      | false => rfl
      | true =>
        exfalso
        have hmem : a ∈ rest ++ [k] := List.elem_iff.mp (by simpa [List.contains] using hc)
        rcases List.mem_append.mp hmem with hr | hk1
        · have : rest.contains a = true := by
            simpa [List.contains] using List.elem_iff.mpr hr
          rw [hna] at this; cases this
        · have hak : a = k := by simpa using hk1
          exact (beq_eq_false_iff_ne.mp hb) hak.symm

theorem keysNodup_objSet (fs : List (String × Js)) (k : String) (v : Js)
    (h : keysNodup (fs.map Prod.fst) = true) :
    keysNodup ((objSet fs k v).map Prod.fst) = true := by
  cases hl : objLookup fs k with
  | some w => rw [objSet_keys_of_lookup_some fs k v w hl]; exact h
  | none =>
    rw [objSet_keys_of_lookup_none fs k v hl]
    refine keysNodup_append_singleton _ _ h ?_
    cases hc : (fs.map Prod.fst).contains k with
    | false => rfl
    | true =>
      obtain ⟨w, hw⟩ := objLookup_isSome_of_contains fs k hc
      rw [hw] at hl; cases hl

theorem keysNodup_objAssign (t s : List (String × Js))
    (h : keysNodup (t.map Prod.fst) = true) :
    keysNodup ((objAssign t s).map Prod.fst) = true := by
  induction s generalizing t with
  | nil => exact h
  | cons kv rest ih =>
    exact ih (objSet t kv.1 kv.2) (keysNodup_objSet t kv.1 kv.2 h)

theorem objLookup_objAssign (t s : List (String × Js)) (k : String)
    (hs : keysNodup (s.map Prod.fst) = true) :
    objLookup (objAssign t s) k = optOr (objLookup s k) (objLookup t k) := by
  induction s generalizing t with
  | nil => simp [objAssign, objLookup, optOr]
  | cons kv rest ih =>
    obtain ⟨k₁, v₁⟩ := kv
    simp only [List.map, keysNodup, Bool.and_eq_true] at hs
    have hc : (rest.map Prod.fst).contains k₁ = false := by simpa using hs.1
    have step : objAssign t ((k₁, v₁) :: rest) = objAssign (objSet t k₁ v₁) rest := rfl
    rw [step, ih _ hs.2]
    by_cases hk : k = k₁
    · subst hk
      rw [objLookup_none_of_not_contains rest k hc]
      simp [optOr, objLookup, objLookup_objSet]
    · have hb : (k₁ == k) = false := beq_eq_false_iff_ne.mpr (Ne.symm hk)
      simp [optOr, objLookup, hb, objLookup_objSet, hk]

theorem objLookup_merged (efs d : List (String × Js)) (k : String)
    (he : keysNodup (efs.map Prod.fst) = true) (hd : keysNodup (d.map Prod.fst) = true) :
    objLookup (objAssign efs (objAssign d efs)) k = optOr (objLookup efs k) (objLookup d k) := by
  have h1 : keysNodup ((objAssign d efs).map Prod.fst) = true := keysNodup_objAssign d efs hd
  rw [objLookup_objAssign _ _ _ h1, objLookup_objAssign _ _ _ he]
  cases objLookup efs k <;> cases objLookup d k <;> simp [optOr]

theorem jsGetProp_of_truthy (v : Js) (k : String) (h : v.truthy = true) :
    jsGetProp v k = Except.ok (jsGetPropD v k) := by
  cases v <;> simp [Js.truthy] at h <;> rfl

theorem obj_of_prop_truthy (v : Js) (k : String)
    (h : (jsGetPropD v k).truthy = true) : ∃ fs, v = Js.obj fs := by
  cases v <;> simp [jsGetPropD, Js.truthy] at h
  exact ⟨_, rfl⟩

theorem jsKeys_serviceFunctions (f : Js) :
    jsKeys (serviceFunctions f) = Except.ok (jsKeysD (serviceFunctions f)) := by
  unfold serviceFunctions
  cases f <;> simp [Js.truthy] <;> first
    | rfl
    | (split <;> rfl)

theorem jsEntries_of_wfParamSource (v : Js) (h : wfParamSource v = true) :
    jsEntries v = Except.ok (jsEntriesD v) := by
  cases v <;> simp [wfParamSource] at h <;> rfl

theorem entries_keysNodup_of_wfParamSource (v : Js) (h : wfParamSource v = true) :
    keysNodup ((jsEntriesD v).map Prod.fst) = true := by
  cases v with
  | obj fs => simpa [jsEntriesD] using h
  | arr xs =>
    have : xs = [] := by simpa [wfParamSource, List.isEmpty_iff] using h
    subst this; simp [jsEntriesD, keysNodup]
  | num n => simp [jsEntriesD, keysNodup]
  | bool b => simp [jsEntriesD, keysNodup]
  | str s => simp [wfParamSource] at h
  | null => simp [wfParamSource] at h
  | undef => simp [wfParamSource] at h

theorem wfParamDoc_obj (x : Js) (h : wfParamDoc x = true) : ∃ fs, x = Js.obj fs := by
  cases x <;> simp [wfParamDoc] at h
  exact ⟨_, rfl⟩

theorem wfParamDoc_keysNodup (fs : List (String × Js))
    (h : wfParamDoc (Js.obj fs) = true) : keysNodup (fs.map Prod.fst) = true := by
  simpa [wfParamDoc] using h

theorem ok_bind {α β : Type} (a : α) (f : α → Except String β) :
    (do let x ← Except.ok a; f x) = f a := rfl

theorem error_bind {α β : Type} (e : String) (f : α → Except String β) :
    (do let x ← (Except.error e : Except String α); f x) = Except.error e := rfl

theorem findParamIdx_eq (xs : List Js) (n : String) (h : xs.all wfParamDoc = true) :
    findParamIdx xs n = Except.ok (idxFirstByName xs n) := by
  induction xs with
  | nil => rfl
  | cons x rest ih =>
    simp only [List.all_cons, Bool.and_eq_true] at h
    obtain ⟨fs, hx⟩ := wfParamDoc_obj x h.1
    subst hx
    have hget : jsGetProp (Js.obj fs) "name" = Except.ok (jsGetPropD (Js.obj fs) "name") := rfl
    simp only [findParamIdx, idxFirstByName, hget, ok_bind]
    cases hm : jsStrictEqStr (jsGetPropD (Js.obj fs) "name") n with
    | true => simp [hm]
    | false =>
      simp only [hm, Bool.false_eq_true, if_false, ih h.2, ok_bind]
      cases idxFirstByName rest n <;> rfl

theorem idxFirstByName_lt (xs : List Js) (n : String) (i : Nat)
    (h : idxFirstByName xs n = some i) : i < xs.length := by
  induction xs generalizing i with
  | nil => simp [idxFirstByName] at h
  | cons x rest ih =>
    simp only [idxFirstByName] at h
    cases hm : jsStrictEqStr (jsGetPropD x "name") n with
    | true =>
      rw [hm] at h; simp at h
      subst h; simp
    | false =>
      rw [hm] at h
      simp only [Bool.false_eq_true, if_false, Option.map_eq_some'] at h
      obtain ⟨j, hj, rfl⟩ := h
      have := ih j hj
      simp [List.length]; omega

theorem idxFirstByName_getD_matches (xs : List Js) (n : String) (i : Nat)
    (h : idxFirstByName xs n = some i) :
    jsStrictEqStr (jsGetPropD (xs.getD i Js.undef) "name") n = true := by
  induction xs generalizing i with
  | nil => simp [idxFirstByName] at h
  | cons x rest ih =>
    simp only [idxFirstByName] at h
    cases hm : jsStrictEqStr (jsGetPropD x "name") n with
    | true =>
      rw [hm] at h; simp at h
      subst h; simpa [List.getD] using hm
    | false =>
      rw [hm] at h
      simp only [Bool.false_eq_true, if_false, Option.map_eq_some'] at h
      obtain ⟨j, hj, rfl⟩ := h
      simpa [List.getD] using ih j hj

theorem jsStrictEqStr_unique (v : Js) (n m : String)
    (hn : jsStrictEqStr v n = true) (hm : jsStrictEqStr v m = true) : n = m := by
  cases v <;> simp [jsStrictEqStr] at hn hm
  exact hn.symm.trans hm

theorem idxFirstByName_append_ne (xs : List Js) (n : String) (d : Js)
    (hd : jsStrictEqStr (jsGetPropD d "name") n = false) :
    idxFirstByName (xs ++ [d]) n = idxFirstByName xs n := by
  induction xs with
  | nil => simp [idxFirstByName, hd]
  | cons x rest ih =>
    simp only [List.cons_append, idxFirstByName]
    cases hm : jsStrictEqStr (jsGetPropD x "name") n <;> simp [hm, ih]

theorem idxFirstByName_set_preserved (xs : List Js) (i : Nat) (e' : Js) (n m : String)
    (hi : idxFirstByName xs n = some i)
    (hnewname : jsStrictEqStr (jsGetPropD e' "name") n = true)
    (hnm : n ≠ m) :
    idxFirstByName (xs.set i e') m = idxFirstByName xs m := by
  induction xs generalizing i with
  | nil => simp [idxFirstByName] at hi
  | cons x rest ih =>
    simp only [idxFirstByName] at hi
    cases hx : jsStrictEqStr (jsGetPropD x "name") n with
    | true =>
      rw [hx] at hi; simp at hi
      subst hi
      have hxm : jsStrictEqStr (jsGetPropD x "name") m = false := by
        cases hc : jsStrictEqStr (jsGetPropD x "name") m with
        | false => rfl
        | true => exact absurd (jsStrictEqStr_unique _ _ _ hx hc) hnm
      have hem : jsStrictEqStr (jsGetPropD e' "name") m = false := by
        cases hc : jsStrictEqStr (jsGetPropD e' "name") m with
        | false => rfl
        | true => exact absurd (jsStrictEqStr_unique _ _ _ hnewname hc) hnm
      simp [List.set, idxFirstByName, hxm, hem]
    | false =>
      rw [hx] at hi
      simp only [Bool.false_eq_true, if_false, Option.map_eq_some'] at hi
      obtain ⟨j, hj, rfl⟩ := hi
      simp [List.set, idxFirstByName, ih j hj]

theorem lodashSetDoc_obj (hfs dfs : List (String × Js)) (k2 : String) (x : Js)
    (h : objLookup hfs "documentation" = some (Js.obj dfs)) :
    lodashSetDoc (Js.obj hfs) k2 x =
      Js.obj (objSet hfs "documentation" (Js.obj (objSet dfs k2 x))) := by
  simp [lodashSetDoc, h]

theorem elemsOfD_eq (doc : Js) (key : String) :
    elemsOfD doc key = elemsOfV (jsGetPropD doc key) := rfl

theorem objSet_objSet (fs : List (String × Js)) (k : String) (v w : Js) :
    objSet (objSet fs k v) k w = objSet fs k w := by
  induction fs with
  | nil => simp [objSet]
  | cons kv rest ih =>
    obtain ⟨k₀, v₀⟩ := kv
    by_cases h0 : k₀ = k
    · subst h0; simp [objSet]
    · have hb0 : (k₀ == k) = false := beq_eq_false_iff_ne.mpr h0
      simp [objSet, hb0, ih]

theorem wfParamDocValue_cases (v : Js) (h : wfParamDocValue v = true) :
    (if v.truthy then v else Js.arr []) = Js.arr (elemsOfV v) ∧
      (elemsOfV v).all wfParamDoc = true := by
  cases ht : v.truthy with
  | false => simp [elemsOfV, ht]
  | true =>
    unfold wfParamDocValue at h
    rw [ht] at h
    simp only [if_true] at h
    cases v with
    | arr xs => simpa [elemsOfV, ht] using h
    | undef => cases ht
    | null => cases ht
    | bool b => simp at h
    | num n => simp at h
    | str ss => simp at h
    | obj fs => simp at h

theorem objLookup_getD_eq_str (fs : List (String × Js)) (k s : String)
    (h : (objLookup fs k).getD Js.undef = Js.str s) :
    objLookup fs k = some (Js.str s) := by
  cases hl : objLookup fs k with
  | some w => rw [hl] at h; simpa using congrArg some h
  | none => rw [hl] at h; cases h

theorem all_set {p : Js → Bool} (xs : List Js) (i : Nat) (e : Js)
    (hall : xs.all p = true) (he : p e = true) : (xs.set i e).all p = true := by
  induction xs generalizing i with
  | nil => simp [List.set]
  | cons x rest ih =>
    simp only [List.all_cons, Bool.and_eq_true] at hall
    cases i with
    | zero => simp [List.set, he, hall.2]
    | succ j => simp [List.set, hall.1, ih j hall.2]

theorem all_getD {p : Js → Bool} (xs : List Js) (i : Nat) (d : Js)
    (hall : xs.all p = true) (hi : i < xs.length) : p (xs.getD i d) = true := by
  induction xs generalizing i with
  | nil => simp at hi
  | cons x rest ih =>
    simp only [List.all_cons, Bool.and_eq_true] at hall
    cases i with
    | zero => simpa [List.getD] using hall.1
    | succ j =>
      have : j < rest.length := by simpa using hi
      simpa [List.getD] using ih j hall.2 this

theorem jsStrictEqStr_eq (v : Js) (s : String) (h : jsStrictEqStr v s = true) :
    v = Js.str s := by
  cases v <;> simp [jsStrictEqStr] at h
  simp [h]

theorem setDefaultParamsDocStep_spec (resolve : String → Js) (key name : String)
    (required : Js) (st : Run) (hfs dfs : List (String × Js))
    (hdoc : objLookup hfs "documentation" = some (Js.obj dfs))
    (hwfv : wfParamDocValue ((objLookup dfs key).getD Js.undef) = true) :
    ∃ dfs' st',
      setDefaultParamsDocStep resolve key (Js.obj hfs, st) (name, required) =
        Except.ok (Js.obj (objSet hfs "documentation" (Js.obj dfs')), st') ∧
      (∀ k, k ≠ key → objLookup dfs' k = objLookup dfs k) ∧
      wfParamDocValue ((objLookup dfs' key).getD Js.undef) = true ∧
      st'.models = st.models ∧
      st'.resolverCalls =
        st.resolverCalls ++ paramRefsFromElems (elemsOfD (Js.obj dfs) key) [(name, required)] ∧
      (idxFirstByName (elemsOfD (Js.obj dfs) key) name = none →
        elemsOfD (Js.obj dfs') key =
          elemsOfD (Js.obj dfs) key ++
            [Js.obj [("name", Js.str name), ("required", required),
                     ("schema", Js.obj [("type", Js.str "string")])]]) ∧
      (∀ i, idxFirstByName (elemsOfD (Js.obj dfs) key) name = some i →
        ∃ e', elemsOfD (Js.obj dfs') key = (elemsOfD (Js.obj dfs) key).set i e' ∧
          jsStrictEqStr (jsGetPropD e' "name") name = true) := by
  obtain ⟨hcur, hallelems⟩ :=
    wfParamDocValue_cases ((objLookup dfs key).getD Js.undef) hwfv
  have hD : elemsOfD (Js.obj dfs) key = elemsOfV ((objLookup dfs key).getD Js.undef) := rfl
  rw [hD]
  cases hidx : idxFirstByName (elemsOfV ((objLookup dfs key).getD Js.undef)) name with
  | none =>
    unfold setDefaultParamsDocStep
    simp only [jsGetProp, hdoc, Option.getD_some, ok_bind, hcur, jsSetProp]
    rw [findParamIdx_eq _ _ hallelems]
    simp only [hidx, ok_bind]
    refine ⟨objSet dfs key (Js.arr (elemsOfV ((objLookup dfs key).getD Js.undef) ++
      [Js.obj [("name", Js.str name), ("required", required),
               ("schema", Js.obj [("type", Js.str "string")])]])), st, ?_, ?_, ?_, rfl, ?_, ?_, ?_⟩
    · simp only [objSet_objSet]
    · intro k hk
      rw [objLookup_objSet]
      simp [hk]
    · rw [objLookup_objSet]
      have hval : wfParamDoc (Js.obj [("name", Js.str name), ("required", required),
          ("schema", Js.obj [("type", Js.str "string")])]) = true := rfl
      simp [wfParamDocValue, Js.truthy, List.all_append, hallelems, hval]
    · simp [paramRefsFromElems, hidx]
    · intro _
      simp [elemsOfD_eq, jsGetPropD, objLookup_objSet, elemsOfV, Js.truthy]
    · intro j hj; cases hj
  | some i =>
    have hilt := idxFirstByName_lt _ _ _ hidx
    have hwfi := all_getD (elemsOfV ((objLookup dfs key).getD Js.undef)) i Js.undef hallelems hilt
    obtain ⟨efs, hex⟩ := wfParamDoc_obj _ hwfi
    have hnodup : keysNodup (efs.map Prod.fst) = true := by
      rw [hex] at hwfi
      exact wfParamDoc_keysNodup efs hwfi
    have hmatch := idxFirstByName_getD_matches _ _ _ hidx
    rw [hex] at hmatch
    have hname : objLookup efs "name" = some (Js.str name) :=
      objLookup_getD_eq_str efs "name" name (jsStrictEqStr_eq _ _ hmatch)
    unfold setDefaultParamsDocStep
    simp only [jsGetProp, hdoc, Option.getD_some, ok_bind, hcur, jsSetProp]
    rw [findParamIdx_eq _ _ hallelems]
    simp only [hidx, ok_bind, hex]
    cases hS : (objLookup efs "schema").getD Js.undef with
    | str s =>
      have hqst : generateSchema resolve st s =
          (resolve s, { st with generatorCreated := true, resolverCalls := st.resolverCalls ++ [s] }) := rfl
      have hnodup2 : keysNodup ((objSet efs "schema" (resolve s)).map Prod.fst) = true :=
        keysNodup_objSet _ _ _ hnodup
      have hval : wfParamDoc (Js.obj (objAssign (objSet efs "schema" (resolve s)) (objAssign [("name", Js.str name), ("required", required), ("schema", Js.obj [("type", Js.str "string")])] (objSet efs "schema" (resolve s))))) = true := by
        simpa [wfParamDoc] using keysNodup_objAssign (objSet efs "schema" (resolve s)) (objAssign [("name", Js.str name), ("required", required), ("schema", Js.obj [("type", Js.str "string")])] (objSet efs "schema" (resolve s))) hnodup2
      refine ⟨objSet dfs key (Js.arr ((elemsOfV ((objLookup dfs key).getD Js.undef)).set i
        (Js.obj (objAssign (objSet efs "schema" (resolve s)) (objAssign [("name", Js.str name), ("required", required), ("schema", Js.obj [("type", Js.str "string")])] (objSet efs "schema" (resolve s))))))),
        { st with generatorCreated := true, resolverCalls := st.resolverCalls ++ [s] }, ?_, ?_, ?_, rfl, ?_, ?_, ?_⟩
      · simp only [hqst, objSet_objSet]
      · intro k hk
        rw [objLookup_objSet]
        simp [hk]
      · rw [objLookup_objSet]
        simp [wfParamDocValue, Js.truthy, all_set _ i _ hallelems hval]
      · have hcall : paramRefsFromElems (elemsOfV ((objLookup dfs key).getD Js.undef)) [(name, required)] = [s] := by
          unfold paramRefsFromElems
          simp only [List.flatMap_cons, List.flatMap_nil, List.append_nil, hidx]
          rw [hex]
          simp [jsGetPropD, hS]
        simp [hcall]
      · intro h; cases h
      · intro j hj
        have hji : j = i := by injection hj with h; exact h.symm
        subst hji
        refine ⟨Js.obj (objAssign (objSet efs "schema" (resolve s)) (objAssign [("name", Js.str name), ("required", required), ("schema", Js.obj [("type", Js.str "string")])] (objSet efs "schema" (resolve s)))), ?_, ?_⟩
        · simp [elemsOfD_eq, jsGetPropD, objLookup_objSet, elemsOfV, Js.truthy]
        · have hname2 : objLookup (objSet efs "schema" (resolve s)) "name" = some (Js.str name) := by
            rw [objLookup_objSet]
            simp [hname]
          have hmname : objLookup (objAssign (objSet efs "schema" (resolve s)) (objAssign [("name", Js.str name), ("required", required), ("schema", Js.obj [("type", Js.str "string")])] (objSet efs "schema" (resolve s)))) "name" = some (Js.str name) := by
            rw [objLookup_merged _ _ _ hnodup2 (by rfl)]
            rw [hname2]
            rfl
          simp [jsGetPropD, hmname, jsStrictEqStr]
    | undef =>
      have hval : wfParamDoc (Js.obj (objAssign efs (objAssign [("name", Js.str name), ("required", required), ("schema", Js.obj [("type", Js.str "string")])] efs))) = true := by
        simpa [wfParamDoc] using keysNodup_objAssign efs (objAssign [("name", Js.str name), ("required", required), ("schema", Js.obj [("type", Js.str "string")])] efs) hnodup
      refine ⟨objSet dfs key (Js.arr ((elemsOfV ((objLookup dfs key).getD Js.undef)).set i
        (Js.obj (objAssign efs (objAssign [("name", Js.str name), ("required", required), ("schema", Js.obj [("type", Js.str "string")])] efs))))), st, ?_, ?_, ?_, rfl, ?_, ?_, ?_⟩
      · simp only [objSet_objSet]
      · intro k hk
        rw [objLookup_objSet]
        simp [hk]
      · rw [objLookup_objSet]
        simp [wfParamDocValue, Js.truthy, all_set _ i _ hallelems hval]
      · have hcall : paramRefsFromElems (elemsOfV ((objLookup dfs key).getD Js.undef)) [(name, required)] = [] := by
          unfold paramRefsFromElems
          simp only [List.flatMap_cons, List.flatMap_nil, List.append_nil, hidx]
          rw [hex]
          simp [jsGetPropD, hS]
        simp [hcall]
      · intro h; cases h
      · intro j hj
        have hji : j = i := by injection hj with h; exact h.symm
        subst hji
        refine ⟨Js.obj (objAssign efs (objAssign [("name", Js.str name), ("required", required), ("schema", Js.obj [("type", Js.str "string")])] efs)), ?_, ?_⟩
        · simp [elemsOfD_eq, jsGetPropD, objLookup_objSet, elemsOfV, Js.truthy]
        · have hmname : objLookup (objAssign efs (objAssign [("name", Js.str name), ("required", required), ("schema", Js.obj [("type", Js.str "string")])] efs)) "name" = some (Js.str name) := by
            rw [objLookup_merged _ _ _ hnodup (by rfl)]
            rw [hname]
            rfl
          simp [jsGetPropD, hmname, jsStrictEqStr]
    | null =>
      have hval : wfParamDoc (Js.obj (objAssign efs (objAssign [("name", Js.str name), ("required", required), ("schema", Js.obj [("type", Js.str "string")])] efs))) = true := by
        simpa [wfParamDoc] using keysNodup_objAssign efs (objAssign [("name", Js.str name), ("required", required), ("schema", Js.obj [("type", Js.str "string")])] efs) hnodup
      refine ⟨objSet dfs key (Js.arr ((elemsOfV ((objLookup dfs key).getD Js.undef)).set i
        (Js.obj (objAssign efs (objAssign [("name", Js.str name), ("required", required), ("schema", Js.obj [("type", Js.str "string")])] efs))))), st, ?_, ?_, ?_, rfl, ?_, ?_, ?_⟩
      · simp only [objSet_objSet]
      · intro k hk
        rw [objLookup_objSet]
        simp [hk]
      · rw [objLookup_objSet]
        simp [wfParamDocValue, Js.truthy, all_set _ i _ hallelems hval]
      · have hcall : paramRefsFromElems (elemsOfV ((objLookup dfs key).getD Js.undef)) [(name, required)] = [] := by
          unfold paramRefsFromElems
          simp only [List.flatMap_cons, List.flatMap_nil, List.append_nil, hidx]
          rw [hex]
          simp [jsGetPropD, hS]
        simp [hcall]
      · intro h; cases h
      · intro j hj
        have hji : j = i := by injection hj with h; exact h.symm
        subst hji
        refine ⟨Js.obj (objAssign efs (objAssign [("name", Js.str name), ("required", required), ("schema", Js.obj [("type", Js.str "string")])] efs)), ?_, ?_⟩
        · simp [elemsOfD_eq, jsGetPropD, objLookup_objSet, elemsOfV, Js.truthy]
        · have hmname : objLookup (objAssign efs (objAssign [("name", Js.str name), ("required", required), ("schema", Js.obj [("type", Js.str "string")])] efs)) "name" = some (Js.str name) := by
            rw [objLookup_merged _ _ _ hnodup (by rfl)]
            rw [hname]
            rfl
          simp [jsGetPropD, hmname, jsStrictEqStr]
    | bool b =>
      have hval : wfParamDoc (Js.obj (objAssign efs (objAssign [("name", Js.str name), ("required", required), ("schema", Js.obj [("type", Js.str "string")])] efs))) = true := by
        simpa [wfParamDoc] using keysNodup_objAssign efs (objAssign [("name", Js.str name), ("required", required), ("schema", Js.obj [("type", Js.str "string")])] efs) hnodup
      refine ⟨objSet dfs key (Js.arr ((elemsOfV ((objLookup dfs key).getD Js.undef)).set i
        (Js.obj (objAssign efs (objAssign [("name", Js.str name), ("required", required), ("schema", Js.obj [("type", Js.str "string")])] efs))))), st, ?_, ?_, ?_, rfl, ?_, ?_, ?_⟩
      · simp only [objSet_objSet]
      · intro k hk
        rw [objLookup_objSet]
        simp [hk]
      · rw [objLookup_objSet]
        simp [wfParamDocValue, Js.truthy, all_set _ i _ hallelems hval]
      · have hcall : paramRefsFromElems (elemsOfV ((objLookup dfs key).getD Js.undef)) [(name, required)] = [] := by
          unfold paramRefsFromElems
          simp only [List.flatMap_cons, List.flatMap_nil, List.append_nil, hidx]
          rw [hex]
          simp [jsGetPropD, hS]
        simp [hcall]
      · intro h; cases h
      · intro j hj
        have hji : j = i := by injection hj with h; exact h.symm
        subst hji
        refine ⟨Js.obj (objAssign efs (objAssign [("name", Js.str name), ("required", required), ("schema", Js.obj [("type", Js.str "string")])] efs)), ?_, ?_⟩
        · simp [elemsOfD_eq, jsGetPropD, objLookup_objSet, elemsOfV, Js.truthy]
        · have hmname : objLookup (objAssign efs (objAssign [("name", Js.str name), ("required", required), ("schema", Js.obj [("type", Js.str "string")])] efs)) "name" = some (Js.str name) := by
            rw [objLookup_merged _ _ _ hnodup (by rfl)]
            rw [hname]
            rfl
          simp [jsGetPropD, hmname, jsStrictEqStr]
    | num n =>
      have hval : wfParamDoc (Js.obj (objAssign efs (objAssign [("name", Js.str name), ("required", required), ("schema", Js.obj [("type", Js.str "string")])] efs))) = true := by
        simpa [wfParamDoc] using keysNodup_objAssign efs (objAssign [("name", Js.str name), ("required", required), ("schema", Js.obj [("type", Js.str "string")])] efs) hnodup
      refine ⟨objSet dfs key (Js.arr ((elemsOfV ((objLookup dfs key).getD Js.undef)).set i
        (Js.obj (objAssign efs (objAssign [("name", Js.str name), ("required", required), ("schema", Js.obj [("type", Js.str "string")])] efs))))), st, ?_, ?_, ?_, rfl, ?_, ?_, ?_⟩
      · simp only [objSet_objSet]
      · intro k hk
        rw [objLookup_objSet]
        simp [hk]
      · rw [objLookup_objSet]
        simp [wfParamDocValue, Js.truthy, all_set _ i _ hallelems hval]
      · have hcall : paramRefsFromElems (elemsOfV ((objLookup dfs key).getD Js.undef)) [(name, required)] = [] := by
          unfold paramRefsFromElems
          simp only [List.flatMap_cons, List.flatMap_nil, List.append_nil, hidx]
          rw [hex]
          simp [jsGetPropD, hS]
        simp [hcall]
      · intro h; cases h
      · intro j hj
        have hji : j = i := by injection hj with h; exact h.symm
        subst hji
        refine ⟨Js.obj (objAssign efs (objAssign [("name", Js.str name), ("required", required), ("schema", Js.obj [("type", Js.str "string")])] efs)), ?_, ?_⟩
        · simp [elemsOfD_eq, jsGetPropD, objLookup_objSet, elemsOfV, Js.truthy]
        · have hmname : objLookup (objAssign efs (objAssign [("name", Js.str name), ("required", required), ("schema", Js.obj [("type", Js.str "string")])] efs)) "name" = some (Js.str name) := by
            rw [objLookup_merged _ _ _ hnodup (by rfl)]
            rw [hname]
            rfl
          simp [jsGetPropD, hmname, jsStrictEqStr]
    | arr a =>
      have hval : wfParamDoc (Js.obj (objAssign efs (objAssign [("name", Js.str name), ("required", required), ("schema", Js.obj [("type", Js.str "string")])] efs))) = true := by
        simpa [wfParamDoc] using keysNodup_objAssign efs (objAssign [("name", Js.str name), ("required", required), ("schema", Js.obj [("type", Js.str "string")])] efs) hnodup
      refine ⟨objSet dfs key (Js.arr ((elemsOfV ((objLookup dfs key).getD Js.undef)).set i
        (Js.obj (objAssign efs (objAssign [("name", Js.str name), ("required", required), ("schema", Js.obj [("type", Js.str "string")])] efs))))), st, ?_, ?_, ?_, rfl, ?_, ?_, ?_⟩
      · simp only [objSet_objSet]
      · intro k hk
        rw [objLookup_objSet]
        simp [hk]
      · rw [objLookup_objSet]
        simp [wfParamDocValue, Js.truthy, all_set _ i _ hallelems hval]
      · have hcall : paramRefsFromElems (elemsOfV ((objLookup dfs key).getD Js.undef)) [(name, required)] = [] := by
          unfold paramRefsFromElems
          simp only [List.flatMap_cons, List.flatMap_nil, List.append_nil, hidx]
          rw [hex]
          simp [jsGetPropD, hS]
        simp [hcall]
      · intro h; cases h
      · intro j hj
        have hji : j = i := by injection hj with h; exact h.symm
        subst hji
        refine ⟨Js.obj (objAssign efs (objAssign [("name", Js.str name), ("required", required), ("schema", Js.obj [("type", Js.str "string")])] efs)), ?_, ?_⟩
        · simp [elemsOfD_eq, jsGetPropD, objLookup_objSet, elemsOfV, Js.truthy]
        · have hmname : objLookup (objAssign efs (objAssign [("name", Js.str name), ("required", required), ("schema", Js.obj [("type", Js.str "string")])] efs)) "name" = some (Js.str name) := by
            rw [objLookup_merged _ _ _ hnodup (by rfl)]
            rw [hname]
            rfl
          simp [jsGetPropD, hmname, jsStrictEqStr]
    | obj o =>
      have hval : wfParamDoc (Js.obj (objAssign efs (objAssign [("name", Js.str name), ("required", required), ("schema", Js.obj [("type", Js.str "string")])] efs))) = true := by
        simpa [wfParamDoc] using keysNodup_objAssign efs (objAssign [("name", Js.str name), ("required", required), ("schema", Js.obj [("type", Js.str "string")])] efs) hnodup
      refine ⟨objSet dfs key (Js.arr ((elemsOfV ((objLookup dfs key).getD Js.undef)).set i
        (Js.obj (objAssign efs (objAssign [("name", Js.str name), ("required", required), ("schema", Js.obj [("type", Js.str "string")])] efs))))), st, ?_, ?_, ?_, rfl, ?_, ?_, ?_⟩
      · simp only [objSet_objSet]
      · intro k hk
        rw [objLookup_objSet]
        simp [hk]
      · rw [objLookup_objSet]
        simp [wfParamDocValue, Js.truthy, all_set _ i _ hallelems hval]
      · have hcall : paramRefsFromElems (elemsOfV ((objLookup dfs key).getD Js.undef)) [(name, required)] = [] := by
          unfold paramRefsFromElems
          simp only [List.flatMap_cons, List.flatMap_nil, List.append_nil, hidx]
          rw [hex]
          simp [jsGetPropD, hS]
        simp [hcall]
      · intro h; cases h
      · intro j hj
        have hji : j = i := by injection hj with h; exact h.symm
        subst hji
        refine ⟨Js.obj (objAssign efs (objAssign [("name", Js.str name), ("required", required), ("schema", Js.obj [("type", Js.str "string")])] efs)), ?_, ?_⟩
        · simp [elemsOfD_eq, jsGetPropD, objLookup_objSet, elemsOfV, Js.truthy]
        · have hmname : objLookup (objAssign efs (objAssign [("name", Js.str name), ("required", required), ("schema", Js.obj [("type", Js.str "string")])] efs)) "name" = some (Js.str name) := by
            rw [objLookup_merged _ _ _ hnodup (by rfl)]
            rw [hname]
            rfl
          simp [jsGetPropD, hmname, jsStrictEqStr]

theorem getD_append_lt (l l' : List Js) (i : Nat) (d : Js) (h : i < l.length) :
    (l ++ l').getD i d = l.getD i d := by
  simp [List.getD, List.getElem?_append, h]

theorem getD_set_ne (l : List Js) (i j : Nat) (e d : Js) (h : j ≠ i) :
    (l.set i e).getD j d = l.getD j d := by
  simp [List.getD, List.getElem?_set_ne (Ne.symm h)]

theorem paramRefsFromElems_cons (xs : List Js) (p : String × Js) (rest : List (String × Js)) :
    paramRefsFromElems xs (p :: rest) =
      paramRefsFromElems xs [p] ++ paramRefsFromElems xs rest := by
  unfold paramRefsFromElems
  simp [List.flatMap_cons, List.flatMap_nil]

theorem paramRefsFromElems_single_eq (xs ys : List Js) (n : String) (r : Js)
    (hidx : idxFirstByName xs n = idxFirstByName ys n)
    (hget : ∀ i, idxFirstByName ys n = some i → xs.getD i Js.undef = ys.getD i Js.undef) :
    paramRefsFromElems xs [(n, r)] = paramRefsFromElems ys [(n, r)] := by
  unfold paramRefsFromElems
  simp only [List.flatMap_cons, List.flatMap_nil, List.append_nil]
  rw [hidx]
  cases hy : idxFirstByName ys n with
  | none => rfl
  | some i => simp only [hget i hy]

theorem paramFold_spec (resolve : String → Js) (key : String) :
    ∀ (entries : List (String × Js)) (hfs dfs : List (String × Js)) (st : Run)
      (elems0 : List Js),
    objLookup hfs "documentation" = some (Js.obj dfs) →
    wfParamDocValue ((objLookup dfs key).getD Js.undef) = true →
    keysNodup (entries.map Prod.fst) = true →
    (∀ p ∈ entries,
      idxFirstByName (elemsOfD (Js.obj dfs) key) p.1 = idxFirstByName elems0 p.1 ∧
      ∀ i, idxFirstByName elems0 p.1 = some i →
        (elemsOfD (Js.obj dfs) key).getD i Js.undef = elems0.getD i Js.undef) →
    ∃ dfs' st',
      entries.foldlM (setDefaultParamsDocStep resolve key) (Js.obj hfs, st) =
        Except.ok (Js.obj (objSet hfs "documentation" (Js.obj dfs')), st') ∧
      (∀ k, k ≠ key → objLookup dfs' k = objLookup dfs k) ∧
      wfParamDocValue ((objLookup dfs' key).getD Js.undef) = true ∧
      st'.models = st.models ∧
      st'.resolverCalls = st.resolverCalls ++ paramRefsFromElems elems0 entries := by
  intro entries
  induction entries with
  | nil =>
    intro hfs dfs st elems0 hdoc hwfv _ _
    refine ⟨dfs, st, ?_, fun k _ => rfl, hwfv, rfl, ?_⟩
    · rw [objSet_self hfs "documentation" (Js.obj dfs) hdoc]
      rfl
    · simp [paramRefsFromElems]
  | cons p rest ih =>
    intro hfs dfs st elems0 hdoc hwfv hnodup hcons
    obtain ⟨name, required⟩ := p
    simp only [List.map, keysNodup, Bool.and_eq_true] at hnodup
    have hnotin : (rest.map Prod.fst).contains name = false := by simpa using hnodup.1
    have hne_name : ∀ q ∈ rest, q.1 ≠ name := by
      intro q hq he
      have hmem : name ∈ rest.map Prod.fst := he ▸ List.mem_map_of_mem Prod.fst hq
      have : (rest.map Prod.fst).contains name = true := by
        simpa [List.contains] using List.elem_iff.mpr hmem
      rw [hnotin] at this; cases this
    obtain ⟨dfs₁, st₁, hrun₁, hpres₁, hwf₁, hmod₁, hcalls₁, hnone₁, hsome₁⟩ :=
      setDefaultParamsDocStep_spec resolve key name required st hfs dfs hdoc hwfv
    have hconsHead := hcons (name, required) (List.mem_cons_self _ _)
    have hcons₁ : ∀ q ∈ rest,
        idxFirstByName (elemsOfD (Js.obj dfs₁) key) q.1 = idxFirstByName elems0 q.1 ∧
        ∀ i, idxFirstByName elems0 q.1 = some i →
          (elemsOfD (Js.obj dfs₁) key).getD i Js.undef = elems0.getD i Js.undef := by
      intro q hq
      have hq1 : q.1 ≠ name := hne_name q hq
      have hqold := hcons q (List.mem_cons_of_mem _ hq)
      cases hcase : idxFirstByName (elemsOfD (Js.obj dfs) key) name with
      | none =>
        have helems₁ := hnone₁ hcase
        have hdname : jsStrictEqStr (jsGetPropD (Js.obj
            [("name", Js.str name), ("required", required),
             ("schema", Js.obj [("type", Js.str "string")])]) "name") q.1 = false := by
          simp [jsGetPropD, objLookup, jsStrictEqStr, beq_eq_false_iff_ne, Ne.symm hq1]
        constructor
        · rw [helems₁, idxFirstByName_append_ne _ _ _ hdname]
          exact hqold.1
        · intro i hi
          have hiold : idxFirstByName (elemsOfD (Js.obj dfs) key) q.1 = some i :=
            hqold.1.trans hi
          have hlt := idxFirstByName_lt _ _ _ hiold
          rw [helems₁, getD_append_lt _ _ _ _ hlt]
          exact hqold.2 i hi
      | some j =>
        obtain ⟨e', helems₁, hename⟩ := hsome₁ j hcase
        constructor
        · rw [helems₁, idxFirstByName_set_preserved _ _ _ _ _ hcase hename (Ne.symm hq1)]
          exact hqold.1
        · intro i hi
          have hiold : idxFirstByName (elemsOfD (Js.obj dfs) key) q.1 = some i :=
            hqold.1.trans hi
          have hij : i ≠ j := by
            intro he
            subst he
            have h1 := idxFirstByName_getD_matches _ _ _ hcase
            have h2 := idxFirstByName_getD_matches _ _ _ hiold
            exact hq1 (jsStrictEqStr_unique _ _ _ h2 h1)
          rw [helems₁, getD_set_ne _ _ _ _ _ hij]
          exact hqold.2 i hi
    have hdoc₁ : objLookup (objSet hfs "documentation" (Js.obj dfs₁)) "documentation" =
        some (Js.obj dfs₁) := by
      rw [objLookup_objSet]; simp
    obtain ⟨dfs₂, st₂, hrun₂, hpres₂, hwf₂, hmod₂, hcalls₂⟩ :=
      ih (objSet hfs "documentation" (Js.obj dfs₁)) dfs₁ st₁ elems0 hdoc₁ hwf₁ hnodup.2 hcons₁
    refine ⟨dfs₂, st₂, ?_, ?_, hwf₂, ?_, ?_⟩
    · rw [List.foldlM_cons, hrun₁]
      simp only [ok_bind]
      rw [hrun₂, objSet_objSet]
    · intro k hk
      rw [hpres₂ k hk, hpres₁ k hk]
    · rw [hmod₂, hmod₁]
    · rw [hcalls₂, hcalls₁,
        paramRefsFromElems_single_eq (elemsOfD (Js.obj dfs) key) elems0 name required
          hconsHead.1 hconsHead.2,
        paramRefsFromElems_cons elems0 (name, required) rest]
      simp [List.append_assoc]

theorem setDefaultParamsDocumentation_spec (resolve : String → Js) (key : String)
    (params : Js) (hfs dfs : List (String × Js)) (st : Run)
    (hdoc : objLookup hfs "documentation" = some (Js.obj dfs))
    (hwfv : wfParamDocValue ((objLookup dfs key).getD Js.undef) = true)
    (hps : wfParamSource params = true) :
    ∃ dfs' st',
      setDefaultParamsDocumentation resolve st params (Js.obj hfs) key =
        Except.ok (Js.obj (objSet hfs "documentation" (Js.obj dfs')), st') ∧
      (∀ k, k ≠ key → objLookup dfs' k = objLookup dfs k) ∧
      wfParamDocValue ((objLookup dfs' key).getD Js.undef) = true ∧
      st'.models = st.models ∧
      st'.resolverCalls = st.resolverCalls ++
        paramRefsFromElems (elemsOfD (Js.obj dfs) key) (jsEntriesD params) := by
  unfold setDefaultParamsDocumentation
  rw [jsEntries_of_wfParamSource params hps]
  simp only [ok_bind]
  exact paramFold_spec resolve key (jsEntriesD params) hfs dfs st
    (elemsOfD (Js.obj dfs) key) hdoc hwfv
    (entries_keysNodup_of_wfParamSource params hps)
    (fun p _ => ⟨rfl, fun _ _ => rfl⟩)

theorem lodashSetDoc_chain (hfs dfs : List (String × Js)) (k2 : String) (x : Js) :
    lodashSetDoc (Js.obj (objSet hfs "documentation" (Js.obj dfs))) k2 x =
      Js.obj (objSet hfs "documentation" (Js.obj (objSet dfs k2 x))) := by
  rw [lodashSetDoc_obj (objSet hfs "documentation" (Js.obj dfs)) dfs k2 x
       (by rw [objLookup_objSet]; simp), objSet_objSet]

theorem setModels_spec (resolve : String → Js) (ns fn : String) (st : Run)
    (hfs dfs : List (String × Js)) (m : String)
    (hm : objLookup hfs "method" = some (Js.str m))
    (hdoc : objLookup hfs "documentation" = some (Js.obj dfs)) :
    ∃ dfs' st',
      setModels resolve ns st (Js.obj hfs) fn =
        Except.ok (Js.obj (objSet hfs "documentation" (Js.obj dfs')), st') ∧
      st'.models = st.models ++
        (methodModelRefs (ns ++ "." ++ upperFirst fn) (toLowerAscii m)).map (mkModelDef resolve) ∧
      st'.resolverCalls = st.resolverCalls ++
        methodModelRefs (ns ++ "." ++ upperFirst fn) (toLowerAscii m) ∧
      (∀ k, k ≠ "methodResponses" → k ≠ "requestModels" → k ≠ "requestBody" →
        objLookup dfs' k = objLookup dfs k) ∧
      ((toLowerAscii m) = "delete" →
        dfs' = objSet dfs "methodResponses"
          (Js.arr [Js.obj [("statusCode", Js.num 204), ("responseModels", Js.obj [])]]) ∧
        st' = st) ∧
      (((toLowerAscii m) = "patch" ∨ (toLowerAscii m) = "put" ∨ (toLowerAscii m) = "post") →
        dfs' = objSet (objSet (objSet dfs
          "requestModels" (Js.obj [("application/json",
            Js.str (ns ++ "." ++ upperFirst fn ++ ".Request.Body"))]))
          "requestBody" (Js.obj [("description", Js.str "")]))
          "methodResponses" (Js.arr [Js.obj [("statusCode", Js.num 200),
            ("responseBody", Js.obj [("description", Js.str "")]),
            ("responseModels", Js.obj [("application/json",
              Js.str (ns ++ "." ++ upperFirst fn ++ ".Response"))])]])) ∧
      ((toLowerAscii m) = "get" →
        dfs' = objSet dfs "methodResponses" (Js.arr [Js.obj [("statusCode", Js.num 200),
          ("responseBody", Js.obj [("description", Js.str "")]),
          ("responseModels", Js.obj [("application/json",
            Js.str (ns ++ "." ++ upperFirst fn ++ ".Response"))])]])) ∧
      ((toLowerAscii m) ≠ "delete" → (toLowerAscii m) ≠ "patch" → (toLowerAscii m) ≠ "put" →
        (toLowerAscii m) ≠ "post" → (toLowerAscii m) ≠ "get" → dfs' = dfs ∧ st' = st) := by
  unfold setModels
  simp only [jsGetProp, hm, Option.getD_some, ok_bind]
  by_cases hdel : (toLowerAscii m) = "delete"
  · refine ⟨objSet dfs "methodResponses"
      (Js.arr [Js.obj [("statusCode", Js.num 204), ("responseModels", Js.obj [])]]), st,
      ?_, ?_, ?_, ?_, fun _ => ⟨rfl, rfl⟩, ?_, ?_, ?_⟩
    · simp only [hdel]
      rw [lodashSetDoc_obj hfs dfs _ _ hdoc]
      rfl
    · unfold methodModelRefs
      simp [hdel]
    · unfold methodModelRefs
      simp [hdel]
    · intro k hk _ _
      rw [objLookup_objSet]
      simp [hk]
    · intro h
      rcases h with h | h | h <;> (rw [hdel] at h; exact absurd h (by decide))
    · intro h
      rw [hdel] at h; exact absurd h (by decide)
    · intro h; exact absurd hdel h
  · have hdb : ((toLowerAscii m) == "delete") = false := beq_eq_false_iff_ne.mpr hdel
    simp only [hdb, Bool.false_eq_true, if_false]
    by_cases hppp : ((toLowerAscii m) == "patch" || (toLowerAscii m) == "put" || (toLowerAscii m) == "post") = true
    · have hor : (toLowerAscii m) = "patch" ∨ (toLowerAscii m) = "put" ∨ (toLowerAscii m) = "post" := by
        rcases Bool.or_eq_true_iff.mp hppp with h | h
        · rcases Bool.or_eq_true_iff.mp h with h' | h'
          · exact Or.inl (beq_iff_eq.mp h')
          · exact Or.inr (Or.inl (beq_iff_eq.mp h'))
        · exact Or.inr (Or.inr (beq_iff_eq.mp h))
      have hget : (toLowerAscii m) ≠ "get" := by
        intro h
        rcases hor with h' | h' | h' <;> (rw [h] at h'; exact absurd h' (by decide))
      refine ⟨objSet (objSet (objSet dfs
          "requestModels" (Js.obj [("application/json",
            Js.str (ns ++ "." ++ upperFirst fn ++ ".Request.Body"))]))
          "requestBody" (Js.obj [("description", Js.str "")]))
          "methodResponses" (Js.arr [Js.obj [("statusCode", Js.num 200),
            ("responseBody", Js.obj [("description", Js.str "")]),
            ("responseModels", Js.obj [("application/json",
              Js.str (ns ++ "." ++ upperFirst fn ++ ".Response"))])]]),
        { st with generatorCreated := true,
                  models := st.models ++
                    [mkModelDef resolve (ns ++ "." ++ upperFirst fn ++ ".Request.Body"),
                     mkModelDef resolve (ns ++ "." ++ upperFirst fn ++ ".Response")],
                  resolverCalls := st.resolverCalls ++
                    [ns ++ "." ++ upperFirst fn ++ ".Request.Body",
                     ns ++ "." ++ upperFirst fn ++ ".Response"] },
        ?_, ?_, ?_, ?_, ?_, fun _ => rfl, ?_, ?_⟩
      · simp only [hppp, if_true, setModelsResponseCase]
        rw [lodashSetDoc_obj hfs dfs _ _ hdoc]
        rw [lodashSetDoc_chain, lodashSetDoc_chain]
        simp [setModel, generateSchema, mkModelDef]
      · unfold methodModelRefs
        simp [hdb, hppp, mkModelDef]
      · unfold methodModelRefs
        simp [hdb, hppp]
      · intro k hk1 hk2 hk3
        rw [objLookup_objSet, objLookup_objSet, objLookup_objSet]
        simp [hk1, hk2, hk3]
      · intro h; exact absurd h hdel
      · intro h; exact absurd h hget
      · intro _ h2 h3 h4 _
        rcases hor with h' | h' | h'
        · exact absurd h' h2
        · exact absurd h' h3
        · exact absurd h' h4
    · have hpf : ((toLowerAscii m) == "patch" || (toLowerAscii m) == "put" || (toLowerAscii m) == "post") = false := by
        simpa using hppp
      simp only [hpf, Bool.false_eq_true, if_false]
      have hnp : (toLowerAscii m) ≠ "patch" ∧ (toLowerAscii m) ≠ "put" ∧ (toLowerAscii m) ≠ "post" := by
        have h3 := Bool.or_eq_false_iff.mp hpf
        have h4 := Bool.or_eq_false_iff.mp h3.1
        exact ⟨beq_eq_false_iff_ne.mp h4.1, beq_eq_false_iff_ne.mp h4.2,
          beq_eq_false_iff_ne.mp h3.2⟩
      by_cases hg : (toLowerAscii m) = "get"
      · refine ⟨objSet dfs "methodResponses" (Js.arr [Js.obj [("statusCode", Js.num 200),
          ("responseBody", Js.obj [("description", Js.str "")]),
          ("responseModels", Js.obj [("application/json",
            Js.str (ns ++ "." ++ upperFirst fn ++ ".Response"))])]]),
          { st with generatorCreated := true,
                    models := st.models ++
                      [mkModelDef resolve (ns ++ "." ++ upperFirst fn ++ ".Response")],
                    resolverCalls := st.resolverCalls ++
                      [ns ++ "." ++ upperFirst fn ++ ".Response"] },
          ?_, ?_, ?_, ?_, ?_, ?_, fun _ => rfl, ?_⟩
        · have hgb : ((toLowerAscii m) == "get") = true := beq_iff_eq.mpr hg
          simp only [hgb, if_true, setModelsResponseCase]
          rw [lodashSetDoc_obj hfs dfs _ _ hdoc]
          simp [setModel, generateSchema, mkModelDef]
        · unfold methodModelRefs
          simp [hdb, hpf, hg, mkModelDef]
        · unfold methodModelRefs
          simp [hdb, hpf, hg]
        · intro k hk _ _
          rw [objLookup_objSet]
          simp [hk]
        · intro h; exact absurd h hdel
        · intro h
          rcases h with h | h | h
          · exact absurd h hnp.1
          · exact absurd h hnp.2.1
          · exact absurd h hnp.2.2
        · intro _ _ _ _ h; exact absurd hg h
      · have hgb : ((toLowerAscii m) == "get") = false := beq_eq_false_iff_ne.mpr hg
        simp only [hgb, Bool.false_eq_true, if_false]
        refine ⟨dfs, st, ?_, ?_, ?_, fun _ _ _ _ => rfl, ?_, ?_, ?_,
          fun _ _ _ _ _ => ⟨rfl, rfl⟩⟩
        · rw [objSet_self hfs "documentation" (Js.obj dfs) hdoc]
        · unfold methodModelRefs
          simp [hdb, hpf, hgb]
        · unfold methodModelRefs
          simp [hdb, hpf, hgb]
        · intro h; exact absurd h hdel
        · intro h
          rcases h with h | h | h
          · exact absurd h hnp.1
          · exact absurd h hnp.2.1
          · exact absurd h hnp.2.2
        · intro h; exact absurd h hg

theorem objLookup_getD_eq_of_ne_undef (fs : List (String × Js)) (k : String) (v : Js)
    (h : (objLookup fs k).getD Js.undef = v) (hv : v ≠ Js.undef) :
    objLookup fs k = some v := by
  cases hl : objLookup fs k with
  | some w => rw [hl] at h; simpa using congrArg some h
  | none => rw [hl] at h; exact absurd h.symm hv

theorem jsGetPath_objSet_ne (fs : List (String × Js)) (k : String) (v : Js)
    (k₁ : String) (rest : List String) (h : k₁ ≠ k) :
    jsGetPath (Js.obj (objSet fs k v)) (k₁ :: rest) = jsGetPath (Js.obj fs) (k₁ :: rest) := by
  simp [jsGetPath, objLookup_objSet, h]

theorem processHttpEvent_spec (resolve : String → Js) (ns fn : String) (st : Run)
    (h : Js) (htruthy : h.truthy = true) (hwf : wfHttpEvent h = true) :
    ∃ h' st',
      processHttpEvent resolve ns st h fn =
        Except.ok (h', st', httpEventMissing fn h) ∧
      st'.models = st.models ++
        (eventRegisteredModelNames ns fn h).map (mkModelDef resolve) ∧
      st'.resolverCalls = st.resolverCalls ++ eventHttpModelRefs ns fn h := by
  unfold processHttpEvent
  rw [jsGetProp_of_truthy h "documentation" htruthy]
  simp only [ok_bind]
  cases hd : (jsGetPropD h "documentation").truthy with
  | false =>
    simp only [hd, Bool.false_eq_true, if_false]
    unfold httpEventMissing eventRegisteredModelNames eventHttpModelRefs
    simp only [hd, Bool.false_eq_true, if_false]
    cases hdc : jsGetPropD h "documentation" with
    | null => exact ⟨h, st, rfl, by simp, by simp⟩
    | undef =>
      rw [jsGetProp_of_truthy h "private" htruthy]
      simp only [ok_bind]
      cases hp : (jsGetPropD h "private").truthy <;>
        simp [hp] <;> exact ⟨h, st, by simp, by simp, by simp⟩
    | bool b =>
      rw [jsGetProp_of_truthy h "private" htruthy]
      simp only [ok_bind]
      cases hp : (jsGetPropD h "private").truthy <;>
        simp [hp] <;> exact ⟨h, st, by simp, by simp, by simp⟩
    | num n =>
      rw [jsGetProp_of_truthy h "private" htruthy]
      simp only [ok_bind]
      cases hp : (jsGetPropD h "private").truthy <;>
        simp [hp] <;> exact ⟨h, st, by simp, by simp, by simp⟩
    | str s =>
      rw [jsGetProp_of_truthy h "private" htruthy]
      simp only [ok_bind]
      cases hp : (jsGetPropD h "private").truthy <;>
        simp [hp] <;> exact ⟨h, st, by simp, by simp, by simp⟩
    | arr a =>
      rw [jsGetProp_of_truthy h "private" htruthy]
      simp only [ok_bind]
      cases hp : (jsGetPropD h "private").truthy <;>
        simp [hp] <;> exact ⟨h, st, by simp, by simp, by simp⟩
    | obj o =>
      rw [jsGetProp_of_truthy h "private" htruthy]
      simp only [ok_bind]
      cases hp : (jsGetPropD h "private").truthy <;>
        simp [hp] <;> exact ⟨h, st, by simp, by simp, by simp⟩
  | true =>
    obtain ⟨hfs, hobj⟩ := obj_of_prop_truthy h "documentation" hd
    subst hobj
    simp only [wfHttpEvent, hd, if_true, Bool.and_eq_true] at hwf
    obtain ⟨⟨⟨hmethod, hdocobj⟩, hwfpaths⟩, hwfqs⟩ := hwf
    have hmstr : ∃ m, jsGetPropD (Js.obj hfs) "method" = Js.str m := by
      cases hjm : jsGetPropD (Js.obj hfs) "method" <;> rw [hjm] at hmethod <;>
        first
          | exact ⟨_, rfl⟩
          | cases hmethod
    obtain ⟨m, hm⟩ := hmstr
    have hdobj : ∃ dfs, jsGetPropD (Js.obj hfs) "documentation" = Js.obj dfs := by
      cases hjd : jsGetPropD (Js.obj hfs) "documentation" <;> rw [hjd] at hdocobj <;>
        first
          | exact ⟨_, rfl⟩
          | cases hdocobj
    obtain ⟨dfs, hdv⟩ := hdobj
    have hmlk : objLookup hfs "method" = some (Js.str m) :=
      objLookup_getD_eq_of_ne_undef hfs "method" (Js.str m) hm (by intro hx; cases hx)
    have hdlk : objLookup hfs "documentation" = some (Js.obj dfs) :=
      objLookup_getD_eq_of_ne_undef hfs "documentation" (Js.obj dfs) hdv (by intro hx; cases hx)
    rw [hdv] at hdocobj
    simp only [Bool.and_eq_true] at hdocobj
    obtain ⟨hwfpp, hwfqp⟩ := hdocobj
    simp only [hd, if_true]
    obtain ⟨dfs₁, st₁, hrun₁, hmod₁, hcall₁, hpres₁, _, _, _, _⟩ :=
      setModels_spec resolve ns fn st hfs dfs m hmlk hdlk
    rw [hrun₁]
    simp only [ok_bind]
    rw [jsGetPath_objSet_ne hfs "documentation" (Js.obj dfs₁) "request" _ (by decide)]
    have hdoc₁ : objLookup (objSet hfs "documentation" (Js.obj dfs₁)) "documentation" =
        some (Js.obj dfs₁) := by rw [objLookup_objSet]; simp
    have hpp₁ : objLookup dfs₁ "pathParams" = objLookup dfs "pathParams" :=
      hpres₁ "pathParams" (by decide) (by decide) (by decide)
    have hqp₁ : objLookup dfs₁ "queryParams" = objLookup dfs "queryParams" :=
      hpres₁ "queryParams" (by decide) (by decide) (by decide)
    have hwfpp₁ : wfParamDocValue ((objLookup dfs₁ "pathParams").getD Js.undef) = true := by
      rw [hpp₁]
      simpa [jsGetPropD] using hwfpp
    obtain ⟨dfs₂, st₂, hrun₂, hpres₂, hwf₂, hmod₂, hcall₂⟩ :=
      setDefaultParamsDocumentation_spec resolve "pathParams"
        (jsDefaultTo (jsGetPath (Js.obj hfs) ["request", "parameters", "paths"]) (Js.arr []))
        (objSet hfs "documentation" (Js.obj dfs₁)) dfs₁ st₁ hdoc₁ hwfpp₁ hwfpaths
    rw [hrun₂]
    simp only [ok_bind, objSet_objSet]
    rw [jsGetPath_objSet_ne hfs "documentation" (Js.obj dfs₁) "request" _ (by decide)]
    have hdoc₂ : objLookup (objSet hfs "documentation" (Js.obj dfs₂)) "documentation" =
        some (Js.obj dfs₂) := by rw [objLookup_objSet]; simp
    have hqp₂ : objLookup dfs₂ "queryParams" = objLookup dfs "queryParams" := by
      rw [hpres₂ "queryParams" (by decide), hqp₁]
    have hwfqp₂ : wfParamDocValue ((objLookup dfs₂ "queryParams").getD Js.undef) = true := by
      rw [hqp₂]
      simpa [jsGetPropD] using hwfqp
    obtain ⟨dfs₃, st₃, hrun₃, hpres₃, hwf₃, hmod₃, hcall₃⟩ :=
      setDefaultParamsDocumentation_spec resolve "queryParams"
        (jsDefaultTo (jsGetPath (Js.obj hfs) ["request", "parameters", "querystrings"]) (Js.obj []))
        (objSet hfs "documentation" (Js.obj dfs₂)) dfs₂ st₂ hdoc₂ hwfqp₂ hwfqs
    rw [hrun₃]
    simp only [ok_bind, objSet_objSet]
    refine ⟨Js.obj (objSet hfs "documentation" (Js.obj dfs₃)), st₃, ?_, ?_, ?_⟩
    · unfold httpEventMissing
      simp [hd]
    · rw [hmod₃, hmod₂, hmod₁]
      unfold eventRegisteredModelNames
      simp only [hd, if_true, hm]
    · rw [hcall₃, hcall₂, hcall₁]
      unfold eventHttpModelRefs
      simp only [hd, if_true, hm]
      unfold paramKeyRefs
      have helems₂ : elemsOfD (Js.obj dfs₂) "queryParams" = elemsOfD (Js.obj dfs) "queryParams" := by
        simp [elemsOfD, jsGetPropD, hqp₂]
      have helems₁ : elemsOfD (Js.obj dfs₁) "pathParams" = elemsOfD (Js.obj dfs) "pathParams" := by
        simp [elemsOfD, jsGetPropD, hpp₁]
      rw [helems₂, helems₁, hdv]
      simp [List.append_assoc]

theorem jsGetProp_of_wfEvent (ev : Js) (k : String) (h : wfEvent ev = true) :
    jsGetProp ev k = Except.ok (jsGetPropD ev k) := by
  cases ev <;> first
    | rfl
    | simp [wfEvent] at h

theorem wfEvent_http (ev : Js) (h : wfEvent ev = true)
    (ht : (jsGetPropD ev "http").truthy = true) :
    wfHttpEvent (jsGetPropD ev "http") = true := by
  cases ev <;> simp [wfEvent, ht] at h ⊢ <;> exact h

theorem scanEvent_spec (resolve : String → Js) (ns fn : String) (st : Run)
    (missing : List String) (ev : Js) (hwf : wfEvent ev = true) :
    ∃ st',
      scanEvent resolve ns fn (st, missing) ev =
        Except.ok (st', missing ++ eventOffender fn ev) ∧
      st'.models = st.models ++
        ((if (jsGetPropD ev "http").truthy then
            eventRegisteredModelNames ns fn (jsGetPropD ev "http")
          else []).map (mkModelDef resolve)) ∧
      st'.resolverCalls = st.resolverCalls ++
        (if (jsGetPropD ev "http").truthy then
          eventHttpModelRefs ns fn (jsGetPropD ev "http")
        else []) := by
  unfold scanEvent
  rw [jsGetProp_of_wfEvent ev "http" hwf]
  simp only [ok_bind]
  cases ht : (jsGetPropD ev "http").truthy with
  | false =>
    simp only [ht, Bool.false_eq_true, if_false]
    refine ⟨st, ?_, by simp, by simp⟩
    unfold eventOffender
    simp [ht]
  | true =>
    simp only [ht, if_true]
    obtain ⟨h', st', hrun, hmod, hcall⟩ :=
      processHttpEvent_spec resolve ns fn st (jsGetPropD ev "http") ht
        (wfEvent_http ev hwf ht)
    rw [hrun]
    simp only [ok_bind]
    refine ⟨st', ?_, hmod, hcall⟩
    unfold eventOffender
    simp [ht]

theorem scanEvents_spec (resolve : String → Js) (ns fn : String) :
    ∀ (evs : List Js) (st : Run) (missing : List String),
    evs.all wfEvent = true →
    ∃ st',
      evs.foldlM (scanEvent resolve ns fn) (st, missing) =
        Except.ok (st', missing ++ evs.flatMap (eventOffender fn)) ∧
      st'.models = st.models ++
        (evs.flatMap (fun ev =>
          if (jsGetPropD ev "http").truthy then
            eventRegisteredModelNames ns fn (jsGetPropD ev "http")
          else [])).map (mkModelDef resolve) ∧
      st'.resolverCalls = st.resolverCalls ++
        evs.flatMap (fun ev =>
          if (jsGetPropD ev "http").truthy then
            eventHttpModelRefs ns fn (jsGetPropD ev "http")
          else []) := by
  intro evs
  induction evs with
  | nil =>
    intro st missing _
    exact ⟨st, by simp [List.foldlM]; rfl, by simp, by simp⟩
  | cons ev rest ih =>
    intro st missing hall
    simp only [List.all_cons, Bool.and_eq_true] at hall
    obtain ⟨st₁, hrun₁, hmod₁, hcall₁⟩ :=
      scanEvent_spec resolve ns fn st missing ev hall.1
    obtain ⟨st₂, hrun₂, hmod₂, hcall₂⟩ :=
      ih st₁ (missing ++ eventOffender fn ev) hall.2
    refine ⟨st₂, ?_, ?_, ?_⟩
    · rw [List.foldlM_cons, hrun₁]
      simp only [ok_bind]
      rw [hrun₂]
      simp [List.append_assoc]
    · rw [hmod₂, hmod₁]
      simp [List.append_assoc]
    · rw [hcall₂, hcall₁]
      simp [List.append_assoc]

theorem scanFunction_spec (resolve : String → Js) (ns : String) (fns : Js)
    (st : Run) (missing : List String) (functionName : String) (evs : List Js)
    (hevs : jsDefaultTo (jsGetPath fns (splitOnDot functionName ++ ["events"])) (Js.arr []) =
      Js.arr evs)
    (hall : evs.all wfEvent = true) :
    ∃ st',
      scanFunction resolve ns fns (st, missing) functionName =
        Except.ok (st',
          missing ++ (functionEventsD fns functionName).flatMap (eventOffender functionName)) ∧
      st'.models = st.models ++
        ((functionEventsD fns functionName).flatMap (fun ev =>
          if (jsGetPropD ev "http").truthy then
            eventRegisteredModelNames ns functionName (jsGetPropD ev "http")
          else [])).map (mkModelDef resolve) ∧
      st'.resolverCalls = st.resolverCalls ++
        (functionEventsD fns functionName).flatMap (fun ev =>
          if (jsGetPropD ev "http").truthy then
            eventHttpModelRefs ns functionName (jsGetPropD ev "http")
          else []) := by
  have hfe : functionEventsD fns functionName = evs := by
    unfold functionEventsD
    rw [hevs]
  unfold scanFunction
  rw [hevs, hfe]
  exact scanEvents_spec resolve ns functionName evs st missing hall

theorem wfFunction_events (v : Js)
    (h : (match v with
          | Js.arr evs => evs.all wfEvent
          | _ => false) = true) :
    ∃ evs, v = Js.arr evs ∧ evs.all wfEvent = true := by
  cases v <;> simp at h
  exact ⟨_, rfl, by simpa using h⟩

theorem scanNamesFold_spec (resolve : String → Js) (ns : String) (fns : Js) :
    ∀ (names : List String) (st : Run) (missing : List String),
    (∀ n ∈ names,
      (match jsDefaultTo (jsGetPath fns (splitOnDot n ++ ["events"])) (Js.arr []) with
       | Js.arr evs => evs.all wfEvent
       | _ => false) = true) →
    ∃ st',
      names.foldlM (scanFunction resolve ns fns) (st, missing) =
        Except.ok (st',
          missing ++ names.flatMap (fun n =>
            (functionEventsD fns n).flatMap (eventOffender n))) ∧
      st'.models = st.models ++
        (names.flatMap (fun n =>
          (functionEventsD fns n).flatMap (fun ev =>
            if (jsGetPropD ev "http").truthy then
              eventRegisteredModelNames ns n (jsGetPropD ev "http")
            else []))).map (mkModelDef resolve) ∧
      st'.resolverCalls = st.resolverCalls ++
        names.flatMap (fun n =>
          (functionEventsD fns n).flatMap (fun ev =>
            if (jsGetPropD ev "http").truthy then
              eventHttpModelRefs ns n (jsGetPropD ev "http")
            else [])) := by
  intro names
  induction names with
  | nil =>
    intro st missing _
    exact ⟨st, by simp [List.foldlM]; rfl, by simp, by simp⟩
  | cons n rest ih =>
    intro st missing hall
    obtain ⟨evs, hevs, hevall⟩ :=
      wfFunction_events _ (hall n (List.mem_cons_self _ _))
    obtain ⟨st₁, hrun₁, hmod₁, hcall₁⟩ :=
      scanFunction_spec resolve ns fns st missing n evs hevs hevall
    obtain ⟨st₂, hrun₂, hmod₂, hcall₂⟩ :=
      ih st₁ (missing ++ (functionEventsD fns n).flatMap (eventOffender n))
        (fun q hq => hall q (List.mem_cons_of_mem _ hq))
    refine ⟨st₂, ?_, ?_, ?_⟩
    · rw [List.foldlM_cons, hrun₁]
      simp only [ok_bind]
      rw [hrun₂]
      simp [List.append_assoc]
    · rw [hmod₂, hmod₁]
      simp [List.append_assoc]
    · rw [hcall₂, hcall₁]
      simp [List.append_assoc]

theorem scanFunctions_spec (resolve : String → Js) (ns : String) (functions : Js)
    (hwf : wfFunctions functions = true) :
    ∃ st,
      scanFunctions resolve ns functions =
        Except.ok (st, offendingFunctions functions) ∧
      st.models = (registeredModelNames ns functions).map (mkModelDef resolve) ∧
      st.resolverCalls = modelRefs ns functions := by
  simp only [scanFunctions]
  rw [jsKeys_serviceFunctions functions]
  simp only [ok_bind]
  have hall : ∀ n ∈ jsKeysD (serviceFunctions functions),
      (match jsDefaultTo (jsGetPath (serviceFunctions functions)
          (splitOnDot n ++ ["events"])) (Js.arr []) with
       | Js.arr evs => evs.all wfEvent
       | _ => false) = true := by
    intro n hn
    unfold wfFunctions at hwf
    exact List.all_eq_true.mp hwf n hn
  obtain ⟨st', hrun, hmod, hcall⟩ :=
    scanNamesFold_spec resolve ns (serviceFunctions functions)
      (jsKeysD (serviceFunctions functions)) emptyRun [] hall
  refine ⟨st', ?_, ?_, ?_⟩
  · rw [hrun]
    rfl
  · rw [hmod]
    rfl
  · rw [hcall]
    rfl

theorem populate_gate_error (resolve : String → Js) (ns : String) (functions : Js)
    (hwf : wfFunctions functions = true)
    (hoff : offendingFunctions functions ≠ []) :
    populateServerlessWithModels resolve ns functions =
      Except.error (missingDocMessage (offendingFunctions functions)) := by
  obtain ⟨st, hrun, _, _⟩ := scanFunctions_spec resolve ns functions hwf
  unfold populateServerlessWithModels
  rw [hrun]
  simp only [ok_bind]
  unfold assertAllFunctionsDocumented
  have hne : (offendingFunctions functions).isEmpty = false := by
    cases h : offendingFunctions functions with
    | nil => exact absurd h hoff
    | cons a l => rfl
  rw [hne]
  rfl

theorem populate_ok_of_no_offenders (resolve : String → Js) (ns : String) (functions : Js)
    (hwf : wfFunctions functions = true)
    (hoff : offendingFunctions functions = []) :
    ∃ st,
      populateServerlessWithModels resolve ns functions = Except.ok st ∧
      st.models = (registeredModelNames ns functions).map (mkModelDef resolve) ∧
      st.resolverCalls = modelRefs ns functions := by
  obtain ⟨st, hrun, hmod, hcall⟩ := scanFunctions_spec resolve ns functions hwf
  refine ⟨st, ?_, hmod, hcall⟩
  unfold populateServerlessWithModels
  rw [hrun]
  simp only [ok_bind]
  unfold assertAllFunctionsDocumented
  rw [hoff]
  rfl

theorem optedOut_lists (ns : String) (functions : Js)
    (hopt : allEventsOptedOut functions = true) :
    offendingFunctions functions = [] ∧ modelRefs ns functions = [] ∧
      registeredModelNames ns functions = [] := by
  unfold allEventsOptedOut at hopt
  have hopt' := List.all_eq_true.mp hopt
  have hev : ∀ n ∈ jsKeysD (serviceFunctions functions),
      ∀ ev ∈ functionEventsD (serviceFunctions functions) n,
      (!(jsGetPropD ev "http").truthy || httpEventOptedOut (jsGetPropD ev "http")) = true := by
    intro n hn ev hevm
    exact List.all_eq_true.mp (hopt' n hn) ev hevm
  have hkey : ∀ n ∈ jsKeysD (serviceFunctions functions),
      ∀ ev ∈ functionEventsD (serviceFunctions functions) n,
      (jsGetPropD ev "http").truthy = true → httpEventOptedOut (jsGetPropD ev "http") = true := by
    intro n hn ev hevm ht
    have := hev n hn ev hevm
    rw [ht] at this
    simpa using this
  refine ⟨?_, ?_, ?_⟩
  · unfold offendingFunctions
    refine List.flatMap_eq_nil_iff.mpr ?_
    intro n hn
    refine List.flatMap_eq_nil_iff.mpr ?_
    intro ev hevm
    unfold eventOffender
    cases ht : (jsGetPropD ev "http").truthy with
    | false => simp [ht]
    | true =>
      simp only [ht, if_true]
      have hoev := hkey n hn ev hevm ht
      unfold httpEventOptedOut at hoev
      simp only [Bool.and_eq_true] at hoev
      unfold httpEventMissing
      have hdf : (jsGetPropD (jsGetPropD ev "http") "documentation").truthy = false := by
        simpa using hoev.1
      simp only [hdf, Bool.false_eq_true, if_false]
      cases hdc : jsGetPropD (jsGetPropD ev "http") "documentation" with
      | null => rfl
      | undef => rw [hdc] at hoev; simpa using hoev.2
      | bool b =>
        rw [hdc] at hoev
        have hp : (jsGetPropD (jsGetPropD ev "http") "private").truthy = true := by
          simpa using hoev.2
        simp [hp]
      | num k =>
        rw [hdc] at hoev
        have hp : (jsGetPropD (jsGetPropD ev "http") "private").truthy = true := by
          simpa using hoev.2
        simp [hp]
      | str sv =>
        rw [hdc] at hoev
        have hp : (jsGetPropD (jsGetPropD ev "http") "private").truthy = true := by
          simpa using hoev.2
        simp [hp]
      | arr a =>
        rw [hdc] at hoev
        have hp : (jsGetPropD (jsGetPropD ev "http") "private").truthy = true := by
          simpa using hoev.2
        simp [hp]
      | obj o =>
        rw [hdc] at hoev
        have hp : (jsGetPropD (jsGetPropD ev "http") "private").truthy = true := by
          simpa using hoev.2
        simp [hp]
  · unfold modelRefs
    refine List.flatMap_eq_nil_iff.mpr ?_
    intro n hn
    refine List.flatMap_eq_nil_iff.mpr ?_
    intro ev hevm
    cases ht : (jsGetPropD ev "http").truthy with
    | false => simp [ht]
    | true =>
      simp only [ht, if_true]
      have hoev := hkey n hn ev hevm ht
      unfold httpEventOptedOut at hoev
      simp only [Bool.and_eq_true] at hoev
      have hdf : (jsGetPropD (jsGetPropD ev "http") "documentation").truthy = false := by
        simpa using hoev.1
      unfold eventHttpModelRefs
      simp [hdf]
  · unfold registeredModelNames
    refine List.flatMap_eq_nil_iff.mpr ?_
    intro n hn
    refine List.flatMap_eq_nil_iff.mpr ?_
    intro ev hevm
    cases ht : (jsGetPropD ev "http").truthy with
    | false => simp [ht]
    | true =>
      simp only [ht, if_true]
      have hoev := hkey n hn ev hevm ht
      unfold httpEventOptedOut at hoev
      simp only [Bool.and_eq_true] at hoev
      have hdf : (jsGetPropD (jsGetPropD ev "http") "documentation").truthy = false := by
        simpa using hoev.1
      unfold eventRegisteredModelNames
      simp [hdf]

/-- C1: for every set of functions (well-formed per the spec's data model) in
which at least one function has an http event whose documentation is absent
and which is not private, `populateServerlessWithModels` runs the scan to
completion over all functions and events and then fails with the
missing-documentation error whose message names every offending function —
the full list `offendingFunctions`, recomputed independently over all
functions and events, never a proper subset — and no error is raised before
the scan finishes. -/
theorem missing_documentation_gate_names_all_offenders
    (resolve : String → Js) (ns : String) (functions : Js)
    (hwf : wfFunctions functions = true)
    (hoff : offendingFunctions functions ≠ []) :
    populateServerlessWithModels resolve ns functions =
      Except.error (missingDocMessage (offendingFunctions functions)) :=
  populate_gate_error resolve ns functions hwf hoff

/-- Witness for C1 at a concrete configuration with one documented function
and two offending functions. -/
theorem missing_documentation_gate_names_all_offenders_witness :
    wfFunctions (Js.obj
      [("good", Js.obj [("events", Js.arr [Js.obj [("http", Js.obj
          [("method", Js.str "get"), ("documentation", Js.obj [])])]])]),
       ("bad", Js.obj [("events", Js.arr [Js.obj [("http", Js.obj
          [("method", Js.str "get")])]])]),
       ("worse", Js.obj [("events", Js.arr [Js.obj [("http", Js.obj
          [("method", Js.str "post")])]])])]) = true ∧
    offendingFunctions (Js.obj
      [("good", Js.obj [("events", Js.arr [Js.obj [("http", Js.obj
          [("method", Js.str "get"), ("documentation", Js.obj [])])]])]),
       ("bad", Js.obj [("events", Js.arr [Js.obj [("http", Js.obj
          [("method", Js.str "get")])]])]),
       ("worse", Js.obj [("events", Js.arr [Js.obj [("http", Js.obj
          [("method", Js.str "post")])]])])]) ≠ [] ∧
    populateServerlessWithModels (fun n => Js.obj [("resolved", Js.str n)]) "Api"
      (Js.obj
        [("good", Js.obj [("events", Js.arr [Js.obj [("http", Js.obj
            [("method", Js.str "get"), ("documentation", Js.obj [])])]])]),
         ("bad", Js.obj [("events", Js.arr [Js.obj [("http", Js.obj
            [("method", Js.str "get")])]])]),
         ("worse", Js.obj [("events", Js.arr [Js.obj [("http", Js.obj
            [("method", Js.str "post")])]])])]) =
      Except.error (missingDocMessage (offendingFunctions (Js.obj
        [("good", Js.obj [("events", Js.arr [Js.obj [("http", Js.obj
            [("method", Js.str "get"), ("documentation", Js.obj [])])]])]),
         ("bad", Js.obj [("events", Js.arr [Js.obj [("http", Js.obj
            [("method", Js.str "get")])]])]),
         ("worse", Js.obj [("events", Js.arr [Js.obj [("http", Js.obj
            [("method", Js.str "post")])]])])]))) :=
  ⟨by decide, by decide,
   missing_documentation_gate_names_all_offenders _ "Api" _ (by decide) (by decide)⟩

/-- C10: for every non-private http event whose documentation value is falsy
but not exactly `null` (for example `false`, `0`, the empty string, or an
explicit `undefined`), scanning treats the event exactly like one with the
documentation key absent: the function is recorded in the
missing-documentation list and the run fails with the completeness-gate
error; only the exact `null` value opts the event out. -/
theorem falsy_nonnull_documentation_is_missing
    (resolve : String → Js) (ns : String) (functions : Js)
    (name : String) (ev : Js)
    (hwf : wfFunctions functions = true)
    (hn : name ∈ jsKeysD (serviceFunctions functions))
    (hev : ev ∈ functionEventsD (serviceFunctions functions) name)
    (hht : (jsGetPropD ev "http").truthy = true)
    (hdf : (jsGetPropD (jsGetPropD ev "http") "documentation").truthy = false)
    (hdn : jsGetPropD (jsGetPropD ev "http") "documentation" ≠ Js.null)
    (hpriv : (jsGetPropD (jsGetPropD ev "http") "private").truthy = false) :
    name ∈ offendingFunctions functions ∧
    populateServerlessWithModels resolve ns functions =
      Except.error (missingDocMessage (offendingFunctions functions)) := by
  have hmem : name ∈ offendingFunctions functions := by
    unfold offendingFunctions
    refine List.mem_flatMap.mpr ⟨name, hn, ?_⟩
    refine List.mem_flatMap.mpr ⟨ev, hev, ?_⟩
    unfold eventOffender httpEventMissing
    simp only [hht, if_true, hdf, Bool.false_eq_true, if_false]
    cases hdc : jsGetPropD (jsGetPropD ev "http") "documentation" with
    | null => exact absurd hdc hdn
    | undef => simp [hpriv]
    | bool b => simp [hpriv]
    | num k => simp [hpriv]
    | str sv => simp [hpriv]
    | arr a => simp [hpriv]
    | obj o => simp [hpriv]
  exact ⟨hmem, populate_gate_error resolve ns functions hwf (List.ne_nil_of_mem hmem)⟩

/-- Witness for C10 at a concrete configuration whose single http event has
`documentation: false` and is not private. -/
theorem falsy_nonnull_documentation_is_missing_witness :
    wfFunctions (Js.obj [("fn", Js.obj [("events", Js.arr [Js.obj [("http", Js.obj
        [("method", Js.str "get"), ("documentation", Js.bool false)])]])])]) = true ∧
    "fn" ∈ offendingFunctions (Js.obj [("fn", Js.obj [("events", Js.arr [Js.obj [("http", Js.obj
        [("method", Js.str "get"), ("documentation", Js.bool false)])]])])]) ∧
    populateServerlessWithModels (fun n => Js.obj [("resolved", Js.str n)]) "Api"
      (Js.obj [("fn", Js.obj [("events", Js.arr [Js.obj [("http", Js.obj
        [("method", Js.str "get"), ("documentation", Js.bool false)])]])])]) =
      Except.error (missingDocMessage (offendingFunctions
        (Js.obj [("fn", Js.obj [("events", Js.arr [Js.obj [("http", Js.obj
          [("method", Js.str "get"), ("documentation", Js.bool false)])]])])]))) := by
  have h := falsy_nonnull_documentation_is_missing
    (fun n => Js.obj [("resolved", Js.str n)]) "Api"
    (Js.obj [("fn", Js.obj [("events", Js.arr [Js.obj [("http", Js.obj
      [("method", Js.str "get"), ("documentation", Js.bool false)])]])])])
    "fn"
    (Js.obj [("http", Js.obj [("method", Js.str "get"), ("documentation", Js.bool false)])])
    (by decide) (by decide) (by exact List.Mem.head _) (by decide) (by decide)
    (by intro hx; cases hx) (by decide)
  exact ⟨by decide, h.1, h.2⟩

/-- C5 counterexample: an http event that is marked private but carries a
truthy documentation object is NOT treated as intentionally undocumented —
the scan synthesizes and registers its `Response` model and invokes the
schema resolver for it, because the source checks `if (httpEvent.documentation)`
before the private check.  This refutes the claim that no model synthesis
happens for every event marked private. -/
theorem private_documented_event_synthesizes_counterexample :
    ((populateServerlessWithModels (fun n => Js.obj [("resolved", Js.str n)]) "Api"
      (Js.obj [("foo", Js.obj [("events", Js.arr [Js.obj [("http", Js.obj
        [("method", Js.str "get"), ("private", Js.bool true),
         ("documentation", Js.obj [])])]])])])).toOption).map
      (fun st => (st.models.map ModelDef.name, st.resolverCalls)) =
    some (["Api.Foo.Response"], ["Api.Foo.Response"]) := by decide

/-- C5 (amended: the opt-out requires the documentation value to not be
truthy — a private event with a truthy documentation object is still
processed): for every http event whose documentation is explicitly `null`,
or which is marked private while its documentation value is falsy/absent,
the scanner treats the event as intentionally undocumented — the event and
run state are returned unchanged and no missing-documentation record is
made — and a run in which every http event is opted out in this sense
succeeds with an empty model registry and no resolver invocation. -/
theorem optedOut_events_noop (resolve : String → Js) (ns fn : String) (st : Run)
    (h : Js) (functions : Js) :
    (h.truthy = true →
      (jsGetPropD h "documentation").truthy = false →
      (jsGetPropD h "documentation" = Js.null ∨ (jsGetPropD h "private").truthy = true) →
      processHttpEvent resolve ns st h fn = Except.ok (h, st, [])) ∧
    (wfFunctions functions = true → allEventsOptedOut functions = true →
      ∃ st', populateServerlessWithModels resolve ns functions = Except.ok st' ∧
        st'.models = [] ∧ st'.resolverCalls = []) := by
  constructor
  · intro ht hdf hopt
    unfold processHttpEvent
    rw [jsGetProp_of_truthy h "documentation" ht]
    simp only [ok_bind, hdf, Bool.false_eq_true, if_false]
    rcases hopt with hnull | hpriv
    · rw [hnull]
    · cases hdc : jsGetPropD h "documentation" with
      | null => rfl
      | undef => rw [jsGetProp_of_truthy h "private" ht]; simp [ok_bind, hpriv]
      | bool b => rw [jsGetProp_of_truthy h "private" ht]; simp [ok_bind, hpriv]
      | num k => rw [jsGetProp_of_truthy h "private" ht]; simp [ok_bind, hpriv]
      | str sv => rw [jsGetProp_of_truthy h "private" ht]; simp [ok_bind, hpriv]
      | arr a => rw [jsGetProp_of_truthy h "private" ht]; simp [ok_bind, hpriv]
      | obj o => rw [jsGetProp_of_truthy h "private" ht]; simp [ok_bind, hpriv]
  · intro hwf hopt
    obtain ⟨hoff, hrefs, hreg⟩ := optedOut_lists ns functions hopt
    obtain ⟨st', hrun, hmod, hcall⟩ :=
      populate_ok_of_no_offenders resolve ns functions hwf hoff
    refine ⟨st', hrun, ?_, ?_⟩
    · rw [hmod, hreg]; rfl
    · rw [hcall, hrefs]

/-- Witness for C5 (amended) at a private undocumented event and at a run
whose single http event has `documentation: null`. -/
theorem optedOut_events_noop_witness :
    (Js.obj [("private", Js.bool true)]).truthy = true ∧
    processHttpEvent (fun n => Js.obj [("resolved", Js.str n)]) "Api" emptyRun
        (Js.obj [("private", Js.bool true)]) "foo" =
      Except.ok (Js.obj [("private", Js.bool true)], emptyRun, []) ∧
    wfFunctions (Js.obj [("a", Js.obj [("events", Js.arr [Js.obj [("http", Js.obj
      [("method", Js.str "get"), ("documentation", Js.null)])]])])]) = true ∧
    allEventsOptedOut (Js.obj [("a", Js.obj [("events", Js.arr [Js.obj [("http", Js.obj
      [("method", Js.str "get"), ("documentation", Js.null)])]])])]) = true ∧
    ∃ st', populateServerlessWithModels (fun n => Js.obj [("resolved", Js.str n)]) "Api"
        (Js.obj [("a", Js.obj [("events", Js.arr [Js.obj [("http", Js.obj
          [("method", Js.str "get"), ("documentation", Js.null)])]])])]) =
        Except.ok st' ∧ st'.models = [] ∧ st'.resolverCalls = [] :=
  ⟨by decide,
   (optedOut_events_noop (fun n => Js.obj [("resolved", Js.str n)]) "Api" "foo" emptyRun
     (Js.obj [("private", Js.bool true)]) Js.undef).1
     (by decide) (by decide) (Or.inr (by decide)),
   by decide, by decide,
   (optedOut_events_noop (fun n => Js.obj [("resolved", Js.str n)]) "Api" "foo" emptyRun
     Js.undef
     (Js.obj [("a", Js.obj [("events", Js.arr [Js.obj [("http", Js.obj
       [("method", Js.str "get"), ("documentation", Js.null)])]])])])).2
     (by decide) (by decide)⟩

/-- C8 counterexample: a function with two identical POST http events causes
the schema resolver (`createSchema`) to be invoked twice for the same model
name `Api.Foo.Request.Body` (and twice for `Api.Foo.Response`): resolver
results are not memoized per distinct model name, refuting the claim that a
model name already resolved is never resolved again. -/
theorem resolver_invoked_twice_for_same_name_counterexample :
    ((scanFunctions (fun n => Js.obj [("resolved", Js.str n)]) "Api"
      (Js.obj [("foo", Js.obj [("events", Js.arr
        [Js.obj [("http", Js.obj [("method", Js.str "post"), ("documentation", Js.obj [])])],
         Js.obj [("http", Js.obj [("method", Js.str "post"), ("documentation", Js.obj [])])]])])])).toOption).map
      (fun r => (r.1.resolverCalls, r.1.resolverCalls.count "Api.Foo.Request.Body")) =
    some (["Api.Foo.Request.Body", "Api.Foo.Response",
           "Api.Foo.Request.Body", "Api.Foo.Response"], 2) := by decide

/-- C8 (amended: only the generator object `this.schemaGenerator` is
memoized — created at most once per run — while `createSchema` itself is
invoked once per reference, so a model name referenced k times causes k
resolver invocations, not one): over a whole scan, the log of resolver
invocations equals `modelRefs`, the per-reference recomputation that lists
one entry for every model registration and every string-schema parameter
resolution, duplicates included, in order. -/
theorem resolver_called_once_per_reference
    (resolve : String → Js) (ns : String) (functions : Js)
    (hwf : wfFunctions functions = true) :
    ∃ st missing,
      scanFunctions resolve ns functions = Except.ok (st, missing) ∧
      st.resolverCalls = modelRefs ns functions := by
  obtain ⟨st, hrun, _, hcall⟩ := scanFunctions_spec resolve ns functions hwf
  exact ⟨st, offendingFunctions functions, hrun, hcall⟩

/-- Witness for C8 (amended) at the duplicate-POST configuration. -/
theorem resolver_called_once_per_reference_witness :
    wfFunctions (Js.obj [("foo", Js.obj [("events", Js.arr
      [Js.obj [("http", Js.obj [("method", Js.str "post"), ("documentation", Js.obj [])])],
       Js.obj [("http", Js.obj [("method", Js.str "post"), ("documentation", Js.obj [])])]])])]) = true ∧
    ∃ st missing,
      scanFunctions (fun n => Js.obj [("resolved", Js.str n)]) "Api"
        (Js.obj [("foo", Js.obj [("events", Js.arr
          [Js.obj [("http", Js.obj [("method", Js.str "post"), ("documentation", Js.obj [])])],
           Js.obj [("http", Js.obj [("method", Js.str "post"), ("documentation", Js.obj [])])]])])]) =
        Except.ok (st, missing) ∧
      st.resolverCalls = modelRefs "Api"
        (Js.obj [("foo", Js.obj [("events", Js.arr
          [Js.obj [("http", Js.obj [("method", Js.str "post"), ("documentation", Js.obj [])])],
           Js.obj [("http", Js.obj [("method", Js.str "post"), ("documentation", Js.obj [])])]])])]) :=
  ⟨by decide,
   resolver_called_once_per_reference (fun n => Js.obj [("resolved", Js.str n)]) "Api"
     (Js.obj [("foo", Js.obj [("events", Js.arr
       [Js.obj [("http", Js.obj [("method", Js.str "post"), ("documentation", Js.obj [])])],
        Js.obj [("http", Js.obj [("method", Js.str "post"), ("documentation", Js.obj [])])]])])])
     (by decide)⟩

/-- C9: the model registry only grows.  A single registration appends
exactly one entry `{name, contentType: "application/json", schema}` to the
end of the registry; registering the same name twice appends two separate
entries, mutating neither; and over a whole (well-formed) scan the final
registry is exactly the in-order map of every registration performed, so no
registration ever removes, reorders, or mutates an earlier entry. -/
theorem registry_append_only (resolve : String → Js) (ns : String)
    (functions : Js) (st : Run) (n : String) :
    (setModel resolve st n).models = st.models ++ [mkModelDef resolve n] ∧
    (setModel resolve (setModel resolve st n) n).models =
      st.models ++ [mkModelDef resolve n, mkModelDef resolve n] ∧
    (wfFunctions functions = true →
      ∀ st' missing, scanFunctions resolve ns functions = Except.ok (st', missing) →
        st'.models = (registeredModelNames ns functions).map (mkModelDef resolve)) := by
  refine ⟨rfl, by simp [setModel, generateSchema, mkModelDef], ?_⟩
  intro hwf st' missing hrun
  obtain ⟨st₀, hrun₀, hmod₀, _⟩ := scanFunctions_spec resolve ns functions hwf
  rw [hrun₀] at hrun
  have hst : st₀ = st' := congrArg Prod.fst (Except.ok.inj hrun)
  rw [← hst, hmod₀]

/-- Witness for C9 at the duplicate-POST configuration (same model name
registered twice: both entries present, earlier entries untouched). -/
theorem registry_append_only_witness :
    (setModel (fun n => Js.obj [("resolved", Js.str n)]) emptyRun "M").models =
      emptyRun.models ++ [mkModelDef (fun n => Js.obj [("resolved", Js.str n)]) "M"] ∧
    wfFunctions (Js.obj [("foo", Js.obj [("events", Js.arr
      [Js.obj [("http", Js.obj [("method", Js.str "post"), ("documentation", Js.obj [])])],
       Js.obj [("http", Js.obj [("method", Js.str "post"), ("documentation", Js.obj [])])]])])]) = true ∧
    ∀ st' missing,
      scanFunctions (fun n => Js.obj [("resolved", Js.str n)]) "Api"
        (Js.obj [("foo", Js.obj [("events", Js.arr
          [Js.obj [("http", Js.obj [("method", Js.str "post"), ("documentation", Js.obj [])])],
           Js.obj [("http", Js.obj [("method", Js.str "post"), ("documentation", Js.obj [])])]])])]) =
        Except.ok (st', missing) →
      st'.models = (registeredModelNames "Api"
        (Js.obj [("foo", Js.obj [("events", Js.arr
          [Js.obj [("http", Js.obj [("method", Js.str "post"), ("documentation", Js.obj [])])],
           Js.obj [("http", Js.obj [("method", Js.str "post"), ("documentation", Js.obj [])])]])])])).map
        (mkModelDef (fun n => Js.obj [("resolved", Js.str n)])) :=
  ⟨(registry_append_only (fun n => Js.obj [("resolved", Js.str n)]) "Api" Js.undef emptyRun "M").1,
   by decide,
   (registry_append_only (fun n => Js.obj [("resolved", Js.str n)]) "Api"
     (Js.obj [("foo", Js.obj [("events", Js.arr
       [Js.obj [("http", Js.obj [("method", Js.str "post"), ("documentation", Js.obj [])])],
        Js.obj [("http", Js.obj [("method", Js.str "post"), ("documentation", Js.obj [])])]])])])
     emptyRun "M").2.2 (by decide)⟩

/-- C6 (code bug): the finalizer never loads the document from the output
path.  The source runs `const openApi = yaml.load(outputFile)`, handing the
output *path string* to the YAML parser instead of the file's content, so
the "document" is the path parsed as a plain scalar string; the strict-mode
property write `openApi.openapi = '3.1.0'` on that string primitive then
throws a TypeError.  At a filesystem that genuinely holds an OpenAPI
document under `openapi.yml`, the run fails with the TypeError — and the
second conjunct shows it does so for every filesystem, i.e. the file is
never read, contradicting the claim that finalization loads the document,
stamps `3.1.0`, and writes it back. -/
theorem postProcessOpenApi_never_loads_document :
    postProcessOpenApi yamlLoadScalar yamlDumpStub
      [("openapi.yml", "openapi: 3.0.0\ninfo:\n  title: Orders API\n")] "openapi.yml" =
      Except.error "TypeError" ∧
    ∀ fsys : List (String × String),
      postProcessOpenApi yamlLoadScalar yamlDumpStub fsys "openapi.yml" =
        Except.error "TypeError" :=
  ⟨rfl, fun _ => rfl⟩

theorem mapJsValuesM_obj (f : Js → Except String Js) (fs fs' : List (String × Js))
    (h : mapPairsM f fs = Except.ok fs') :
    mapJsValuesM f (Js.obj fs) = Except.ok (Js.obj fs') := by
  simp only [mapJsValuesM, h, ok_bind]

theorem mapPairsM_cons (f : Js → Except String Js) (kv : String × Js)
    (rest : List (String × Js)) (v' : Js) (rest' : List (String × Js))
    (hv : f kv.2 = Except.ok v') (hrest : mapPairsM f rest = Except.ok rest') :
    mapPairsM f (kv :: rest) = Except.ok ((kv.1, v') :: rest') := by
  unfold mapPairsM
  rw [hv]
  simp only [ok_bind]
  rw [hrest]
  rfl

theorem tagOps_spec (tv : Js) (mfs : List (String × Js))
    (h : ∀ o ∈ mfs, ∃ os, o.2 = Js.obj os) :
    ∃ mfs',
      mapPairsM (fun m => jsSetProp m "tags" (Js.arr [tv])) mfs = Except.ok mfs' ∧
      List.Forall₂ (fun mo mo' => mo'.1 = mo.1 ∧
        ∃ os, mo.2 = Js.obj os ∧
          mo'.2 = Js.obj (objSet os "tags" (Js.arr [tv])) ∧
          objLookup (objSet os "tags" (Js.arr [tv])) "tags" =
            some (Js.arr [tv])) mfs mfs' := by
  induction mfs with
  | nil => exact ⟨[], rfl, List.Forall₂.nil⟩
  | cons mo rest ih =>
    obtain ⟨os, hos⟩ := h mo (List.mem_cons_self _ _)
    obtain ⟨rest', hrest, hrel⟩ := ih (fun o ho => h o (List.mem_cons_of_mem _ ho))
    refine ⟨(mo.1, Js.obj (objSet os "tags" (Js.arr [tv]))) :: rest', ?_, ?_⟩
    · refine mapPairsM_cons _ mo rest _ rest' ?_ hrest
      rw [hos]
      rfl
    · refine List.Forall₂.cons ⟨rfl, os, hos, rfl, ?_⟩ hrel
      rw [objLookup_objSet]
      simp

theorem tagPaths_spec (tv : Js) (pfs : List (String × Js))
    (hops : ∀ p ∈ pfs, ∃ mfs, p.2 = Js.obj mfs ∧ ∀ o ∈ mfs, ∃ os, o.2 = Js.obj os) :
    ∃ pfs',
      mapPairsM (fun pathItem =>
        mapJsValuesM (fun m => jsSetProp m "tags" (Js.arr [tv])) pathItem) pfs =
        Except.ok pfs' ∧
      List.Forall₂ (fun kv kv' => kv'.1 = kv.1 ∧
        ∃ mfs mfs', kv.2 = Js.obj mfs ∧ kv'.2 = Js.obj mfs' ∧
          List.Forall₂ (fun mo mo' => mo'.1 = mo.1 ∧
            ∃ os, mo.2 = Js.obj os ∧
              mo'.2 = Js.obj (objSet os "tags" (Js.arr [tv])) ∧
              objLookup (objSet os "tags" (Js.arr [tv])) "tags" =
                some (Js.arr [tv])) mfs mfs') pfs pfs' := by
  induction pfs with
  | nil => exact ⟨[], rfl, List.Forall₂.nil⟩
  | cons kv rest ih =>
    obtain ⟨mfs, hmfs, hall⟩ := hops kv (List.mem_cons_self _ _)
    obtain ⟨mfs', hmrun, hmrel⟩ := tagOps_spec tv mfs hall
    obtain ⟨rest', hrest, hrel⟩ := ih (fun p hp => hops p (List.mem_cons_of_mem _ hp))
    refine ⟨(kv.1, Js.obj mfs') :: rest', ?_, ?_⟩
    · refine mapPairsM_cons _ kv rest _ rest' ?_ hrest
      rw [hmfs]
      exact mapJsValuesM_obj _ mfs mfs' hmrun
    · exact List.Forall₂.cons ⟨rfl, mfs, mfs', hmfs, rfl, hmrel⟩ hrel

/-- C7: for every loaded OpenAPI document (an object with an `info` object
and a `paths` mapping of path items whose values are operation objects),
`tagMethods` sets the document's top-level `tags` to the single entry
`{name: info.title, description: info.description}` and sets every
operation's `tags` to the single-element array `[info.title]`, overwriting
any pre-existing tags on the operation (the resulting operation stores
exactly `[info.title]` under `tags`, whatever was there before). -/
theorem tagMethods_retags_every_operation (ofs ifs pfs : List (String × Js))
    (hinfo : objLookup ofs "info" = some (Js.obj ifs))
    (hpaths : objLookup ofs "paths" = some (Js.obj pfs))
    (hops : ∀ p ∈ pfs, ∃ mfs, p.2 = Js.obj mfs ∧ ∀ o ∈ mfs, ∃ os, o.2 = Js.obj os) :
    ∃ ofs' pfs',
      tagMethods (Js.obj ofs) = Except.ok (Js.obj ofs') ∧
      objLookup ofs' "tags" = some (Js.arr [Js.obj
        [("name", jsGetPropD (Js.obj ifs) "title"),
         ("description", jsGetPropD (Js.obj ifs) "description")]]) ∧
      objLookup ofs' "paths" = some (Js.obj pfs') ∧
      List.Forall₂ (fun kv kv' => kv'.1 = kv.1 ∧
        ∃ mfs mfs', kv.2 = Js.obj mfs ∧ kv'.2 = Js.obj mfs' ∧
          List.Forall₂ (fun mo mo' => mo'.1 = mo.1 ∧
            ∃ os, mo.2 = Js.obj os ∧
              mo'.2 = Js.obj (objSet os "tags"
                (Js.arr [jsGetPropD (Js.obj ifs) "title"])) ∧
              objLookup (objSet os "tags"
                (Js.arr [jsGetPropD (Js.obj ifs) "title"])) "tags" =
                some (Js.arr [jsGetPropD (Js.obj ifs) "title"])) mfs mfs') pfs pfs' := by
  obtain ⟨pfs', hprun, hprel⟩ := tagPaths_spec (jsGetPropD (Js.obj ifs) "title") pfs hops
  refine ⟨objSet (objSet ofs "tags" (Js.arr [Js.obj
      [("name", jsGetPropD (Js.obj ifs) "title"),
       ("description", jsGetPropD (Js.obj ifs) "description")]]))
      "paths" (Js.obj pfs'), pfs', ?_, ?_, ?_, hprel⟩
  · unfold tagMethods
    simp only [jsGetProp, hinfo, Option.getD_some, ok_bind]
    simp only [show ∀ (fs : List (String × Js)) (k : String),
      ((objLookup fs k).getD Js.undef) = jsGetPropD (Js.obj fs) k from fun _ _ => rfl]
    rw [show jsSetProp (Js.obj ofs) "tags" (Js.arr [Js.obj
        [("name", jsGetPropD (Js.obj ifs) "title"),
         ("description", jsGetPropD (Js.obj ifs) "description")]]) =
      Except.ok (Js.obj (objSet ofs "tags" (Js.arr [Js.obj
        [("name", jsGetPropD (Js.obj ifs) "title"),
         ("description", jsGetPropD (Js.obj ifs) "description")]]))) from rfl]
    simp only [ok_bind]
    have hp2 : jsGetPropD (Js.obj (objSet ofs "tags" (Js.arr [Js.obj
        [("name", jsGetPropD (Js.obj ifs) "title"),
         ("description", jsGetPropD (Js.obj ifs) "description")]]))) "paths" =
        Js.obj pfs := by
      show (objLookup (objSet ofs "tags" (Js.arr [Js.obj
        [("name", jsGetPropD (Js.obj ifs) "title"),
         ("description", jsGetPropD (Js.obj ifs) "description")]])) "paths").getD Js.undef =
        Js.obj pfs
      rw [objLookup_objSet]
      simp [hpaths]
    rw [hp2]
    rw [mapJsValuesM_obj _ pfs pfs' hprun]
    simp only [ok_bind]
    rfl
  · rw [objLookup_objSet]
    rw [if_neg (by decide), objLookup_objSet, if_pos rfl]
  · rw [objLookup_objSet]
    simp

/-- Witness for C7 at a concrete document with a pre-tagged operation. -/
theorem tagMethods_retags_every_operation_witness :
    objLookup [("openapi", Js.str "3.0.0"), ("info", Js.obj [("title", Js.str "Orders API"), ("description", Js.str "desc")]), ("tags", Js.arr [Js.obj [("name", Js.str "old")]]), ("paths", Js.obj [("/a", Js.obj [("get", Js.obj [("tags", Js.arr [Js.str "x"]), ("summary", Js.str "s")]), ("post", Js.obj [])]), ("/b", Js.obj [])])] "info" = some (Js.obj [("title", Js.str "Orders API"), ("description", Js.str "desc")]) ∧
    objLookup [("openapi", Js.str "3.0.0"), ("info", Js.obj [("title", Js.str "Orders API"), ("description", Js.str "desc")]), ("tags", Js.arr [Js.obj [("name", Js.str "old")]]), ("paths", Js.obj [("/a", Js.obj [("get", Js.obj [("tags", Js.arr [Js.str "x"]), ("summary", Js.str "s")]), ("post", Js.obj [])]), ("/b", Js.obj [])])] "paths" = some (Js.obj [("/a", Js.obj [("get", Js.obj [("tags", Js.arr [Js.str "x"]), ("summary", Js.str "s")]), ("post", Js.obj [])]), ("/b", Js.obj [])]) ∧
    ∃ ofs' pfs',
      tagMethods (Js.obj [("openapi", Js.str "3.0.0"), ("info", Js.obj [("title", Js.str "Orders API"), ("description", Js.str "desc")]), ("tags", Js.arr [Js.obj [("name", Js.str "old")]]), ("paths", Js.obj [("/a", Js.obj [("get", Js.obj [("tags", Js.arr [Js.str "x"]), ("summary", Js.str "s")]), ("post", Js.obj [])]), ("/b", Js.obj [])])]) = Except.ok (Js.obj ofs') ∧
      objLookup ofs' "tags" = some (Js.arr [Js.obj
        [("name", jsGetPropD (Js.obj [("title", Js.str "Orders API"), ("description", Js.str "desc")]) "title"),
         ("description", jsGetPropD (Js.obj [("title", Js.str "Orders API"), ("description", Js.str "desc")]) "description")]]) ∧
      objLookup ofs' "paths" = some (Js.obj pfs') ∧
      List.Forall₂ (fun kv kv' => kv'.1 = kv.1 ∧
        ∃ mfs mfs', kv.2 = Js.obj mfs ∧ kv'.2 = Js.obj mfs' ∧
          List.Forall₂ (fun mo mo' => mo'.1 = mo.1 ∧
            ∃ os, mo.2 = Js.obj os ∧
              mo'.2 = Js.obj (objSet os "tags"
                (Js.arr [jsGetPropD (Js.obj [("title", Js.str "Orders API"), ("description", Js.str "desc")]) "title"])) ∧
              objLookup (objSet os "tags"
                (Js.arr [jsGetPropD (Js.obj [("title", Js.str "Orders API"), ("description", Js.str "desc")]) "title"])) "tags" =
                some (Js.arr [jsGetPropD (Js.obj [("title", Js.str "Orders API"), ("description", Js.str "desc")]) "title"])) mfs mfs') [("/a", Js.obj [("get", Js.obj [("tags", Js.arr [Js.str "x"]), ("summary", Js.str "s")]), ("post", Js.obj [])]), ("/b", Js.obj [])] pfs' :=
  ⟨rfl, rfl,
   tagMethods_retags_every_operation [("openapi", Js.str "3.0.0"), ("info", Js.obj [("title", Js.str "Orders API"), ("description", Js.str "desc")]), ("tags", Js.arr [Js.obj [("name", Js.str "old")]]), ("paths", Js.obj [("/a", Js.obj [("get", Js.obj [("tags", Js.arr [Js.str "x"]), ("summary", Js.str "s")]), ("post", Js.obj [])]), ("/b", Js.obj [])])] [("title", Js.str "Orders API"), ("description", Js.str "desc")] [("/a", Js.obj [("get", Js.obj [("tags", Js.arr [Js.str "x"]), ("summary", Js.str "s")]), ("post", Js.obj [])]), ("/b", Js.obj [])] rfl rfl
     (by
       intro p hp
       rcases List.mem_cons.mp hp with h | hp
       · subst h
         refine ⟨_, rfl, ?_⟩
         intro o ho
         rcases List.mem_cons.mp ho with h | ho
         · subst h; exact ⟨_, rfl⟩
         · rcases List.mem_cons.mp ho with h | ho
           · subst h; exact ⟨_, rfl⟩
           · exact absurd ho (List.not_mem_nil o)
       · rcases List.mem_cons.mp hp with h | hp
         · subst h
           refine ⟨_, rfl, ?_⟩
           intro o ho
           exact absurd ho (List.not_mem_nil o)
         · exact absurd hp (List.not_mem_nil p))⟩

/-- C3: for every documented http event whose method is case-insensitively
DELETE, `setModels` overwrites `documentation.methodResponses` with exactly
one entry `{statusCode: 204, responseModels: {}}`, whatever `methodResponses`
previously held, leaves every other documentation key unchanged, and
registers no request or response model: the run state (model registry and
resolver-invocation log) is returned exactly as it was. -/
theorem setModels_delete_overwrites (resolve : String → Js) (ns fn : String)
    (st : Run) (hfs dfs : List (String × Js)) (m : String)
    (hm : objLookup hfs "method" = some (Js.str m))
    (hdoc : objLookup hfs "documentation" = some (Js.obj dfs))
    (hdel : toLowerAscii m = "delete") :
    ∃ dfs',
      setModels resolve ns st (Js.obj hfs) fn =
        Except.ok (Js.obj (objSet hfs "documentation" (Js.obj dfs')), st) ∧
      objLookup dfs' "methodResponses" =
        some (Js.arr [Js.obj [("statusCode", Js.num 204), ("responseModels", Js.obj [])]]) ∧
      (∀ k, k ≠ "methodResponses" → objLookup dfs' k = objLookup dfs k) := by
  obtain ⟨dfs', st', hrun, hmod, hcall, hpres, hdelc, _, _, _⟩ :=
    setModels_spec resolve ns fn st hfs dfs m hm hdoc
  obtain ⟨hdfs, hst⟩ := hdelc hdel
  subst hdfs
  subst hst
  refine ⟨_, hrun, ?_, ?_⟩
  · rw [objLookup_objSet]
    simp
  · intro k hk
    rw [objLookup_objSet]
    simp [hk]

/-- Witness for C3 at a concrete event with method `DELETE` (upper case)
whose documentation already holds a different `methodResponses` entry,
exercising both case-insensitivity and the overwrite. -/
theorem setModels_delete_overwrites_witness :
    objLookup [("method", Js.str "DELETE"),
       ("documentation", Js.obj [("methodResponses",
         Js.arr [Js.obj [("statusCode", Js.num 200)]]), ("summary", Js.str "keep")])]
      "method" = some (Js.str "DELETE") ∧
    toLowerAscii "DELETE" = "delete" ∧
    ∃ dfs',
      setModels (fun n => Js.obj [("resolved", Js.str n)]) "Api" emptyRun
        (Js.obj [("method", Js.str "DELETE"),
          ("documentation", Js.obj [("methodResponses",
            Js.arr [Js.obj [("statusCode", Js.num 200)]]), ("summary", Js.str "keep")])]) "del" =
        Except.ok (Js.obj (objSet [("method", Js.str "DELETE"),
          ("documentation", Js.obj [("methodResponses",
            Js.arr [Js.obj [("statusCode", Js.num 200)]]), ("summary", Js.str "keep")])]
          "documentation" (Js.obj dfs')), emptyRun) ∧
      objLookup dfs' "methodResponses" =
        some (Js.arr [Js.obj [("statusCode", Js.num 204), ("responseModels", Js.obj [])]]) ∧
      (∀ k, k ≠ "methodResponses" →
        objLookup dfs' k = objLookup [("methodResponses",
          Js.arr [Js.obj [("statusCode", Js.num 200)]]), ("summary", Js.str "keep")] k) :=
  ⟨rfl, by decide,
   setModels_delete_overwrites (fun n => Js.obj [("resolved", Js.str n)]) "Api" "del"
     emptyRun
     [("method", Js.str "DELETE"),
      ("documentation", Js.obj [("methodResponses",
        Js.arr [Js.obj [("statusCode", Js.num 200)]]), ("summary", Js.str "keep")])]
     [("methodResponses", Js.arr [Js.obj [("statusCode", Js.num 200)]]),
      ("summary", Js.str "keep")]
     "DELETE" rfl rfl (by decide)⟩

/-- C2 counterexample: the model-name prefix is built with lodash
`upperFirst`, not PascalCase.  For the function name `submit-order` the
source registers `Api.Submit-order.Request.Body` and
`Api.Submit-order.Response`, while the claimed name
`<apiNamespace>.<PascalCase(functionName)>.Request.Body` would be
`Api.SubmitOrder.Request.Body`, which is not among the registered models. -/
theorem setModels_pascalcase_counterexample :
    ((setModels (fun n => Js.obj [("resolved", Js.str n)]) "Api" emptyRun
      (Js.obj [("method", Js.str "post"), ("documentation", Js.obj [])])
      "submit-order").toOption).map (fun p => p.2.models.map ModelDef.name) =
      some ["Api.Submit-order.Request.Body", "Api.Submit-order.Response"] ∧
    pascalCase "submit-order" = "SubmitOrder" ∧
    ("Api." ++ pascalCase "submit-order" ++ ".Request.Body") ∉
      ["Api.Submit-order.Request.Body", "Api.Submit-order.Response"] := by
  refine ⟨by decide, by decide, by decide⟩

/-- C2 (amended: the name prefix is `<apiNamespace>.<upperFirst(functionName)>` —
lodash `upperFirst` capitalizes only the first character and keeps the rest
verbatim — not PascalCase): for every documented http event whose method is
case-insensitively POST, PUT or PATCH, `setModels` registers the request
model `<prefix>.Request.Body`, sets `documentation.requestModels` to
`{application/json: that name}` and `documentation.requestBody` to
`{description: ""}`, and additionally performs the GET behavior, setting
`methodResponses` to the single entry `{statusCode: 200, responseBody:
{description: ""}, responseModels: {application/json: <prefix>.Response}}`
and registering `<prefix>.Response`; for a GET event only the Response
model and the 200 entry are produced — no request model is registered and
`requestModels`/`requestBody` are left exactly as they were. -/
theorem setModels_writes_request_and_response_models
    (resolve : String → Js) (ns fn : String) (st : Run)
    (hfs dfs : List (String × Js)) (m : String)
    (hm : objLookup hfs "method" = some (Js.str m))
    (hdoc : objLookup hfs "documentation" = some (Js.obj dfs)) :
    ((toLowerAscii m = "post" ∨ toLowerAscii m = "put" ∨ toLowerAscii m = "patch") →
      ∃ dfs' st',
        setModels resolve ns st (Js.obj hfs) fn =
          Except.ok (Js.obj (objSet hfs "documentation" (Js.obj dfs')), st') ∧
        st'.models = st.models ++
          [mkModelDef resolve (ns ++ "." ++ upperFirst fn ++ ".Request.Body"),
           mkModelDef resolve (ns ++ "." ++ upperFirst fn ++ ".Response")] ∧
        objLookup dfs' "requestModels" =
          some (Js.obj [("application/json",
            Js.str (ns ++ "." ++ upperFirst fn ++ ".Request.Body"))]) ∧
        objLookup dfs' "requestBody" = some (Js.obj [("description", Js.str "")]) ∧
        objLookup dfs' "methodResponses" =
          some (Js.arr [Js.obj [("statusCode", Js.num 200),
            ("responseBody", Js.obj [("description", Js.str "")]),
            ("responseModels", Js.obj [("application/json",
              Js.str (ns ++ "." ++ upperFirst fn ++ ".Response"))])]])) ∧
    (toLowerAscii m = "get" →
      ∃ dfs' st',
        setModels resolve ns st (Js.obj hfs) fn =
          Except.ok (Js.obj (objSet hfs "documentation" (Js.obj dfs')), st') ∧
        st'.models = st.models ++
          [mkModelDef resolve (ns ++ "." ++ upperFirst fn ++ ".Response")] ∧
        objLookup dfs' "methodResponses" =
          some (Js.arr [Js.obj [("statusCode", Js.num 200),
            ("responseBody", Js.obj [("description", Js.str "")]),
            ("responseModels", Js.obj [("application/json",
              Js.str (ns ++ "." ++ upperFirst fn ++ ".Response"))])]]) ∧
        objLookup dfs' "requestModels" = objLookup dfs "requestModels" ∧
        objLookup dfs' "requestBody" = objLookup dfs "requestBody") := by
  obtain ⟨dfs', st', hrun, hmod, hcall, hpres, hdelc, hpostc, hgetc, hotherc⟩ :=
    setModels_spec resolve ns fn st hfs dfs m hm hdoc
  constructor
  · intro hor
    have hor' : toLowerAscii m = "patch" ∨ toLowerAscii m = "put" ∨ toLowerAscii m = "post" := by
      rcases hor with h | h | h
      · exact Or.inr (Or.inr h)
      · exact Or.inr (Or.inl h)
      · exact Or.inl h
    have hdfs := hpostc hor'
    subst hdfs
    refine ⟨_, st', hrun, ?_, ?_, ?_, ?_⟩
    · rw [hmod]
      rcases hor with h | h | h <;> rw [h] <;> simp [methodModelRefs]
    · rw [objLookup_objSet, if_neg (by decide), objLookup_objSet, if_neg (by decide),
        objLookup_objSet, if_pos rfl]
    · rw [objLookup_objSet, if_neg (by decide), objLookup_objSet, if_pos rfl]
    · rw [objLookup_objSet, if_pos rfl]
  · intro hg
    have hdfs := hgetc hg
    subst hdfs
    refine ⟨_, st', hrun, ?_, ?_, ?_, ?_⟩
    · rw [hmod, hg]
      simp [methodModelRefs]
    · rw [objLookup_objSet, if_pos rfl]
    · rw [objLookup_objSet, if_neg (by decide)]
    · rw [objLookup_objSet, if_neg (by decide)]

/-- Witness for C2 (amended) at concrete PUT and GET events. -/
theorem setModels_writes_request_and_response_models_witness :
    toLowerAscii "PUT" = "put" ∧
    (∃ dfs' st',
      setModels (fun n => Js.obj [("resolved", Js.str n)]) "Api" emptyRun
        (Js.obj [("method", Js.str "PUT"), ("documentation", Js.obj [])]) "saveUser" =
        Except.ok (Js.obj (objSet [("method", Js.str "PUT"), ("documentation", Js.obj [])]
          "documentation" (Js.obj dfs')), st') ∧
      st'.models = emptyRun.models ++
        [mkModelDef (fun n => Js.obj [("resolved", Js.str n)]) "Api.SaveUser.Request.Body",
         mkModelDef (fun n => Js.obj [("resolved", Js.str n)]) "Api.SaveUser.Response"] ∧
      objLookup dfs' "requestModels" =
        some (Js.obj [("application/json", Js.str "Api.SaveUser.Request.Body")]) ∧
      objLookup dfs' "requestBody" = some (Js.obj [("description", Js.str "")]) ∧
      objLookup dfs' "methodResponses" =
        some (Js.arr [Js.obj [("statusCode", Js.num 200),
          ("responseBody", Js.obj [("description", Js.str "")]),
          ("responseModels", Js.obj [("application/json", Js.str "Api.SaveUser.Response")])]])) ∧
    (∃ dfs' st',
      setModels (fun n => Js.obj [("resolved", Js.str n)]) "Api" emptyRun
        (Js.obj [("method", Js.str "get"),
          ("documentation", Js.obj [("requestModels", Js.str "keep")])]) "getUser" =
        Except.ok (Js.obj (objSet [("method", Js.str "get"),
          ("documentation", Js.obj [("requestModels", Js.str "keep")])]
          "documentation" (Js.obj dfs')), st') ∧
      st'.models = emptyRun.models ++
        [mkModelDef (fun n => Js.obj [("resolved", Js.str n)]) "Api.GetUser.Response"] ∧
      objLookup dfs' "methodResponses" =
        some (Js.arr [Js.obj [("statusCode", Js.num 200),
          ("responseBody", Js.obj [("description", Js.str "")]),
          ("responseModels", Js.obj [("application/json", Js.str "Api.GetUser.Response")])]]) ∧
      objLookup dfs' "requestModels" =
        objLookup [("requestModels", Js.str "keep")] "requestModels" ∧
      objLookup dfs' "requestBody" = objLookup [("requestModels", Js.str "keep")] "requestBody") :=
  ⟨by decide,
   (setModels_writes_request_and_response_models (fun n => Js.obj [("resolved", Js.str n)])
     "Api" "saveUser" emptyRun [("method", Js.str "PUT"), ("documentation", Js.obj [])]
     [] "PUT" rfl rfl).1 (Or.inr (Or.inl (by decide))),
   (setModels_writes_request_and_response_models (fun n => Js.obj [("resolved", Js.str n)])
     "Api" "getUser" emptyRun [("method", Js.str "get"),
       ("documentation", Js.obj [("requestModels", Js.str "keep")])]
     [("requestModels", Js.str "keep")] "get" rfl rfl).2 (by decide)⟩

/-- C4: for every (name, required) pair in an event's path or query
parameter set, one normalization step behaves as follows.  If no ParamDoc
with that name exists in `documentation[documentationKey]`, the default
entry `{name, required, schema: {type: "string"}}` is appended at the
end, all prior entries untouched.  If the first entry with that name sits
at position i, then: a string-valued `schema` on it is first replaced in
place by the resolver's schema object (with exactly that one resolver
invocation); the entry is then merged in place so that every field already
present keeps its value, the fields of the default that are absent fill the
gaps, the merged entry sits at the same position i, and every other entry
of the list — and every other documentation key — is unchanged. -/
theorem param_default_merge (resolve : String → Js) (key name : String) (required : Js)
    (st : Run) (hfs dfs : List (String × Js))
    (hdoc : objLookup hfs "documentation" = some (Js.obj dfs))
    (hwfv : wfParamDocValue ((objLookup dfs key).getD Js.undef) = true) :
    (idxFirstByName (elemsOfD (Js.obj dfs) key) name = none →
      setDefaultParamsDocStep resolve key (Js.obj hfs, st) (name, required) =
        Except.ok (Js.obj (objSet hfs "documentation" (Js.obj (objSet dfs key
          (Js.arr (elemsOfD (Js.obj dfs) key ++
            [Js.obj [("name", Js.str name), ("required", required), ("schema", Js.obj [("type", Js.str "string")])]]))))), st)) ∧
    (∀ i efs, idxFirstByName (elemsOfD (Js.obj dfs) key) name = some i →
      (elemsOfD (Js.obj dfs) key).getD i Js.undef = Js.obj efs →
      ∃ efs' st',
        setDefaultParamsDocStep resolve key (Js.obj hfs, st) (name, required) =
          Except.ok (Js.obj (objSet hfs "documentation" (Js.obj (objSet dfs key
            (Js.arr ((elemsOfD (Js.obj dfs) key).set i (Js.obj efs')))))), st') ∧
        (∀ s, objLookup efs "schema" = some (Js.str s) →
          objLookup efs' "schema" = some (resolve s) ∧
          st' = { st with generatorCreated := true, resolverCalls := st.resolverCalls ++ [s] }) ∧
        ((∀ s, objLookup efs "schema" ≠ some (Js.str s)) → st' = st) ∧
        (∀ k v, k ≠ "schema" → objLookup efs k = some v → objLookup efs' k = some v) ∧
        (∀ v, objLookup efs "schema" = some v → (∀ s, v ≠ Js.str s) →
          objLookup efs' "schema" = some v) ∧
        (objLookup efs "schema" = none →
          objLookup efs' "schema" = some (Js.obj [("type", Js.str "string")])) ∧
        (objLookup efs "required" = none → objLookup efs' "required" = some required) ∧
        (objLookup efs "name" = none → objLookup efs' "name" = some (Js.str name)) ∧
        st'.models = st.models) := by
  obtain ⟨hcur, hallelems⟩ :=
    wfParamDocValue_cases ((objLookup dfs key).getD Js.undef) hwfv
  have hD : elemsOfD (Js.obj dfs) key = elemsOfV ((objLookup dfs key).getD Js.undef) := rfl
  rw [hD]
  cases hidx : idxFirstByName (elemsOfV ((objLookup dfs key).getD Js.undef)) name with
  | none =>
    constructor
    · intro _
      unfold setDefaultParamsDocStep
      simp only [jsGetProp, hdoc, Option.getD_some, ok_bind, hcur, jsSetProp]
      rw [findParamIdx_eq _ _ hallelems]
      simp only [hidx, ok_bind]
      simp only [objSet_objSet]
    · intro i efs h1 _
      cases h1
  | some i =>
    constructor
    · intro h1
      cases h1
    · intro j efs hj hex
      have hji : j = i := by injection hj with h; exact h.symm
      subst hji
      have hilt := idxFirstByName_lt _ _ _ hidx
      have hwfi := all_getD (elemsOfV ((objLookup dfs key).getD Js.undef)) j Js.undef hallelems hilt
      rw [hex] at hwfi
      have hnodup : keysNodup (efs.map Prod.fst) = true := wfParamDoc_keysNodup efs hwfi
      have hmatch := idxFirstByName_getD_matches _ _ _ hidx
      rw [hex] at hmatch
      have hname : objLookup efs "name" = some (Js.str name) :=
        objLookup_getD_eq_str efs "name" name (jsStrictEqStr_eq _ _ hmatch)
      have hdefnodup : keysNodup (([("name", Js.str name), ("required", required), ("schema", Js.obj [("type", Js.str "string")])] : List (String × Js)).map Prod.fst) = true := by rfl
      unfold setDefaultParamsDocStep
      simp only [jsGetProp, hdoc, Option.getD_some, ok_bind, hcur, jsSetProp]
      rw [findParamIdx_eq _ _ hallelems]
      simp only [hidx, ok_bind, hex]
      cases hS : (objLookup efs "schema").getD Js.undef with
      | str s =>
        have hSl : objLookup efs "schema" = some (Js.str s) :=
          objLookup_getD_eq_str efs "schema" s hS
        have hqst : generateSchema resolve st s =
            (resolve s, { st with generatorCreated := true, resolverCalls := st.resolverCalls ++ [s] }) := rfl
        have hnodup2 : keysNodup ((objSet efs "schema" (resolve s)).map Prod.fst) = true :=
          keysNodup_objSet _ _ _ hnodup
        have hmg : ∀ k, objLookup (objAssign (objSet efs "schema" (resolve s))
            (objAssign [("name", Js.str name), ("required", required), ("schema", Js.obj [("type", Js.str "string")])] (objSet efs "schema" (resolve s)))) k =
            optOr (objLookup (objSet efs "schema" (resolve s)) k) (objLookup [("name", Js.str name), ("required", required), ("schema", Js.obj [("type", Js.str "string")])] k) :=
          fun k => objLookup_merged _ _ k hnodup2 hdefnodup
        refine ⟨objAssign (objSet efs "schema" (resolve s))
          (objAssign [("name", Js.str name), ("required", required), ("schema", Js.obj [("type", Js.str "string")])] (objSet efs "schema" (resolve s))),
          { st with generatorCreated := true, resolverCalls := st.resolverCalls ++ [s] },
          ?_, ?_, ?_, ?_, ?_, ?_, ?_, ?_, rfl⟩
        · simp only [hqst, objSet_objSet]
        · intro s' hs'
          have hss : s' = s := by
            rw [hSl] at hs'
            have := Option.some.inj hs'
            injection this with h
            exact h.symm
          subst hss
          refine ⟨?_, rfl⟩
          rw [hmg "schema", objLookup_objSet, if_pos rfl]
          rfl
        · intro hno
          exact absurd hSl (hno s)
        · intro k v hk hkv
          rw [hmg k, objLookup_objSet, if_neg hk, hkv]
          rfl
        · intro v hv hnv
          rw [hSl] at hv
          exact absurd (Option.some.inj hv).symm (hnv s)
        · intro hnone
          rw [hnone] at hSl
          cases hSl
        · intro hreq
          rw [hmg "required", objLookup_objSet, if_neg (by decide), hreq]
          simp [objLookup, optOr]
        · intro hnm
          rw [hnm] at hname
          cases hname
      | undef =>
        have hnostr : ∀ s, objLookup efs "schema" ≠ some (Js.str s) := by
          intro s hs
          rw [hs] at hS
          cases hS
        have hmg : ∀ k, objLookup (objAssign efs (objAssign [("name", Js.str name), ("required", required), ("schema", Js.obj [("type", Js.str "string")])] efs)) k =
            optOr (objLookup efs k) (objLookup [("name", Js.str name), ("required", required), ("schema", Js.obj [("type", Js.str "string")])] k) :=
          fun k => objLookup_merged _ _ k hnodup hdefnodup
        refine ⟨objAssign efs (objAssign [("name", Js.str name), ("required", required), ("schema", Js.obj [("type", Js.str "string")])] efs), st,
          ?_, ?_, fun _ => rfl, ?_, ?_, ?_, ?_, ?_, rfl⟩
        · simp only [objSet_objSet]
        · intro s' hs'
          exact absurd hs' (hnostr s')
        · intro k v hk hkv
          rw [hmg k, hkv]
          rfl
        · intro v hv _
          rw [hmg "schema", hv]
          rfl
        · intro hnone
          rw [hmg "schema", hnone]
          simp [objLookup, optOr]
        · intro hreq
          rw [hmg "required", hreq]
          simp [objLookup, optOr]
        · intro hnm
          rw [hnm] at hname
          cases hname
      | null =>
        have hnostr : ∀ s, objLookup efs "schema" ≠ some (Js.str s) := by
          intro s hs
          rw [hs] at hS
          cases hS
        have hmg : ∀ k, objLookup (objAssign efs (objAssign [("name", Js.str name), ("required", required), ("schema", Js.obj [("type", Js.str "string")])] efs)) k =
            optOr (objLookup efs k) (objLookup [("name", Js.str name), ("required", required), ("schema", Js.obj [("type", Js.str "string")])] k) :=
          fun k => objLookup_merged _ _ k hnodup hdefnodup
        refine ⟨objAssign efs (objAssign [("name", Js.str name), ("required", required), ("schema", Js.obj [("type", Js.str "string")])] efs), st,
          ?_, ?_, fun _ => rfl, ?_, ?_, ?_, ?_, ?_, rfl⟩
        · simp only [objSet_objSet]
        · intro s' hs'
          exact absurd hs' (hnostr s')
        · intro k v hk hkv
          rw [hmg k, hkv]
          rfl
        · intro v hv _
          rw [hmg "schema", hv]
          rfl
        · intro hnone
          rw [hmg "schema", hnone]
          simp [objLookup, optOr]
        · intro hreq
          rw [hmg "required", hreq]
          simp [objLookup, optOr]
        · intro hnm
          rw [hnm] at hname
          cases hname
      | bool b =>
        have hnostr : ∀ s, objLookup efs "schema" ≠ some (Js.str s) := by
          intro s hs
          rw [hs] at hS
          cases hS
        have hmg : ∀ k, objLookup (objAssign efs (objAssign [("name", Js.str name), ("required", required), ("schema", Js.obj [("type", Js.str "string")])] efs)) k =
            optOr (objLookup efs k) (objLookup [("name", Js.str name), ("required", required), ("schema", Js.obj [("type", Js.str "string")])] k) :=
          fun k => objLookup_merged _ _ k hnodup hdefnodup
        refine ⟨objAssign efs (objAssign [("name", Js.str name), ("required", required), ("schema", Js.obj [("type", Js.str "string")])] efs), st,
          ?_, ?_, fun _ => rfl, ?_, ?_, ?_, ?_, ?_, rfl⟩
        · simp only [objSet_objSet]
        · intro s' hs'
          exact absurd hs' (hnostr s')
        · intro k v hk hkv
          rw [hmg k, hkv]
          rfl
        · intro v hv _
          rw [hmg "schema", hv]
          rfl
        · intro hnone
          rw [hmg "schema", hnone]
          simp [objLookup, optOr]
        · intro hreq
          rw [hmg "required", hreq]
          simp [objLookup, optOr]
        · intro hnm
          rw [hnm] at hname
          cases hname
      | num nv =>
        have hnostr : ∀ s, objLookup efs "schema" ≠ some (Js.str s) := by
          intro s hs
          rw [hs] at hS
          cases hS
        have hmg : ∀ k, objLookup (objAssign efs (objAssign [("name", Js.str name), ("required", required), ("schema", Js.obj [("type", Js.str "string")])] efs)) k =
            optOr (objLookup efs k) (objLookup [("name", Js.str name), ("required", required), ("schema", Js.obj [("type", Js.str "string")])] k) :=
          fun k => objLookup_merged _ _ k hnodup hdefnodup
        refine ⟨objAssign efs (objAssign [("name", Js.str name), ("required", required), ("schema", Js.obj [("type", Js.str "string")])] efs), st,
          ?_, ?_, fun _ => rfl, ?_, ?_, ?_, ?_, ?_, rfl⟩
        · simp only [objSet_objSet]
        · intro s' hs'
          exact absurd hs' (hnostr s')
        · intro k v hk hkv
          rw [hmg k, hkv]
          rfl
        · intro v hv _
          rw [hmg "schema", hv]
          rfl
        · intro hnone
          rw [hmg "schema", hnone]
          simp [objLookup, optOr]
        · intro hreq
          rw [hmg "required", hreq]
          simp [objLookup, optOr]
        · intro hnm
          rw [hnm] at hname
          cases hname
      | arr av =>
        have hnostr : ∀ s, objLookup efs "schema" ≠ some (Js.str s) := by
          intro s hs
          rw [hs] at hS
          cases hS
        have hmg : ∀ k, objLookup (objAssign efs (objAssign [("name", Js.str name), ("required", required), ("schema", Js.obj [("type", Js.str "string")])] efs)) k =
            optOr (objLookup efs k) (objLookup [("name", Js.str name), ("required", required), ("schema", Js.obj [("type", Js.str "string")])] k) :=
          fun k => objLookup_merged _ _ k hnodup hdefnodup
        refine ⟨objAssign efs (objAssign [("name", Js.str name), ("required", required), ("schema", Js.obj [("type", Js.str "string")])] efs), st,
          ?_, ?_, fun _ => rfl, ?_, ?_, ?_, ?_, ?_, rfl⟩
        · simp only [objSet_objSet]
        · intro s' hs'
          exact absurd hs' (hnostr s')
        · intro k v hk hkv
          rw [hmg k, hkv]
          rfl
        · intro v hv _
          rw [hmg "schema", hv]
          rfl
        · intro hnone
          rw [hmg "schema", hnone]
          simp [objLookup, optOr]
        · intro hreq
          rw [hmg "required", hreq]
          simp [objLookup, optOr]
        · intro hnm
          rw [hnm] at hname
          cases hname
      | obj ov =>
        have hnostr : ∀ s, objLookup efs "schema" ≠ some (Js.str s) := by
          intro s hs
          rw [hs] at hS
          cases hS
        have hmg : ∀ k, objLookup (objAssign efs (objAssign [("name", Js.str name), ("required", required), ("schema", Js.obj [("type", Js.str "string")])] efs)) k =
            optOr (objLookup efs k) (objLookup [("name", Js.str name), ("required", required), ("schema", Js.obj [("type", Js.str "string")])] k) :=
          fun k => objLookup_merged _ _ k hnodup hdefnodup
        refine ⟨objAssign efs (objAssign [("name", Js.str name), ("required", required), ("schema", Js.obj [("type", Js.str "string")])] efs), st,
          ?_, ?_, fun _ => rfl, ?_, ?_, ?_, ?_, ?_, rfl⟩
        · simp only [objSet_objSet]
        · intro s' hs'
          exact absurd hs' (hnostr s')
        · intro k v hk hkv
          rw [hmg k, hkv]
          rfl
        · intro v hv _
          rw [hmg "schema", hv]
          rfl
        · intro hnone
          rw [hmg "schema", hnone]
          simp [objLookup, optOr]
        · intro hreq
          rw [hmg "required", hreq]
          simp [objLookup, optOr]
        · intro hnm
          rw [hnm] at hname
          cases hname

theorem param_default_merge_witness :
    objLookup [("documentation", Js.obj [("pathParams", Js.arr
        [Js.obj [("name", Js.str "id"), ("required", Js.bool true),
                 ("schema", Js.str "Foo.Bar")]])])] "documentation" =
      some (Js.obj [("pathParams", Js.arr
        [Js.obj [("name", Js.str "id"), ("required", Js.bool true),
                 ("schema", Js.str "Foo.Bar")]])]) ∧
    wfParamDocValue ((objLookup [("pathParams", Js.arr
        [Js.obj [("name", Js.str "id"), ("required", Js.bool true),
                 ("schema", Js.str "Foo.Bar")]])] "pathParams").getD Js.undef) = true ∧
    ((idxFirstByName (elemsOfD (Js.obj [("pathParams", Js.arr
        [Js.obj [("name", Js.str "id"), ("required", Js.bool true),
                 ("schema", Js.str "Foo.Bar")]])]) "pathParams") "id" = none →
      setDefaultParamsDocStep (fun n => Js.obj [("title", Js.str n)]) "pathParams"
          (Js.obj [("documentation", Js.obj [("pathParams", Js.arr
            [Js.obj [("name", Js.str "id"), ("required", Js.bool true),
                     ("schema", Js.str "Foo.Bar")]])])], emptyRun) ("id", Js.bool true) =
        Except.ok (Js.obj (objSet [("documentation", Js.obj [("pathParams", Js.arr
            [Js.obj [("name", Js.str "id"), ("required", Js.bool true),
                     ("schema", Js.str "Foo.Bar")]])])] "documentation"
          (Js.obj (objSet [("pathParams", Js.arr
            [Js.obj [("name", Js.str "id"), ("required", Js.bool true),
                     ("schema", Js.str "Foo.Bar")]])] "pathParams"
          (Js.arr (elemsOfD (Js.obj [("pathParams", Js.arr
            [Js.obj [("name", Js.str "id"), ("required", Js.bool true),
                     ("schema", Js.str "Foo.Bar")]])]) "pathParams" ++
            [Js.obj [("name", Js.str "id"), ("required", Js.bool true),
                     ("schema", Js.obj [("type", Js.str "string")])]]))))), emptyRun)) ∧
    (∀ i efs, idxFirstByName (elemsOfD (Js.obj [("pathParams", Js.arr
        [Js.obj [("name", Js.str "id"), ("required", Js.bool true),
                 ("schema", Js.str "Foo.Bar")]])]) "pathParams") "id" = some i →
      (elemsOfD (Js.obj [("pathParams", Js.arr
        [Js.obj [("name", Js.str "id"), ("required", Js.bool true),
                 ("schema", Js.str "Foo.Bar")]])]) "pathParams").getD i Js.undef = Js.obj efs →
      ∃ efs' st',
        setDefaultParamsDocStep (fun n => Js.obj [("title", Js.str n)]) "pathParams"
            (Js.obj [("documentation", Js.obj [("pathParams", Js.arr
              [Js.obj [("name", Js.str "id"), ("required", Js.bool true),
                       ("schema", Js.str "Foo.Bar")]])])], emptyRun) ("id", Js.bool true) =
          Except.ok (Js.obj (objSet [("documentation", Js.obj [("pathParams", Js.arr
              [Js.obj [("name", Js.str "id"), ("required", Js.bool true),
                       ("schema", Js.str "Foo.Bar")]])])] "documentation"
            (Js.obj (objSet [("pathParams", Js.arr
              [Js.obj [("name", Js.str "id"), ("required", Js.bool true),
                       ("schema", Js.str "Foo.Bar")]])] "pathParams"
            (Js.arr ((elemsOfD (Js.obj [("pathParams", Js.arr
              [Js.obj [("name", Js.str "id"), ("required", Js.bool true),
                       ("schema", Js.str "Foo.Bar")]])]) "pathParams").set i
              (Js.obj efs')))))), st') ∧
        (∀ s, objLookup efs "schema" = some (Js.str s) →
          objLookup efs' "schema" = some ((fun n => Js.obj [("title", Js.str n)]) s) ∧
          st' = { emptyRun with generatorCreated := true, resolverCalls := emptyRun.resolverCalls ++ [s] }) ∧
        ((∀ s, objLookup efs "schema" ≠ some (Js.str s)) → st' = emptyRun) ∧
        (∀ k v, k ≠ "schema" → objLookup efs k = some v → objLookup efs' k = some v) ∧
        (∀ v, objLookup efs "schema" = some v → (∀ s, v ≠ Js.str s) →
          objLookup efs' "schema" = some v) ∧
        (objLookup efs "schema" = none →
          objLookup efs' "schema" = some (Js.obj [("type", Js.str "string")])) ∧
        (objLookup efs "required" = none → objLookup efs' "required" = some (Js.bool true)) ∧
        (objLookup efs "name" = none → objLookup efs' "name" = some (Js.str "id")) ∧
        st'.models = emptyRun.models)) :=
  ⟨rfl, by decide,
    param_default_merge (fun n => Js.obj [("title", Js.str n)]) "pathParams" "id"
      (Js.bool true) emptyRun
      [("documentation", Js.obj [("pathParams", Js.arr
        [Js.obj [("name", Js.str "id"), ("required", Js.bool true),
                 ("schema", Js.str "Foo.Bar")]])])]
      [("pathParams", Js.arr
        [Js.obj [("name", Js.str "id"), ("required", Js.bool true),
                 ("schema", Js.str "Foo.Bar")]])]
      rfl (by decide)⟩
